import Mathlib

/-!
Verification development for the Atric Sales Assistant (src/atric_sales_online.py).

The core of the program — the numeric token parser `parse_number`, the free-text
query parser `parse_query`, the filter engine `apply_filters`, and the schema
normalizer `cleanup_cols` / `load_all_units` — is shallowly embedded here.
Python strings are modelled as `List Char` (ASCII fragment), Python floats as
exact values (`PyVal`: a rational, an infinity, or NaN), raised exceptions as
`Except.error`, and pandas data frames either as lists of canonical-schema
records (`UnitRecord`, for the filter engine) or as column-named tables
(`Df`, for the normalizer and the export/display views).
-/

namespace Atric

/-! ## Character helpers (Python string / regex primitives, ASCII fragment) -/

/-- Python regex `\s` and `str.strip` whitespace characters. -/
def pyWs (c : Char) : Bool :=
  c = ' ' || c = '\t' || c = '\n' || c = '\r' || c = '\x0b' || c = '\x0c'

/-- Python regex word character `\w` (ASCII fragment): letters, digits, underscore. -/
def isWordC (c : Char) : Bool := c.isAlphanum || c = '_'

def isDigitC (c : Char) : Bool := c.isDigit

def toLowerL (cs : List Char) : List Char := cs.map Char.toLower

def toUpperL (cs : List Char) : List Char := cs.map Char.toUpper

/-- Python `str.strip()`: drop whitespace from both ends. -/
def stripL (cs : List Char) : List Char :=
  ((cs.dropWhile pyWs).reverse.dropWhile pyWs).reverse

/-- Python `str.replace(",", "")`. -/
def removeCommaL (cs : List Char) : List Char := cs.filter (fun c => c != ',')

/-- Strip an expected literal prefix, returning the remainder when present. -/
def dropPref : List Char → List Char → Option (List Char)
  | [], cs => some cs
  | _, [] => none
  | p :: ps, c :: cs => if p = c then dropPref ps cs else none

/-- Python `pat in s` substring containment. -/
def isSubL (pat : List Char) : List Char → Bool
  | [] => (dropPref pat []).isSome
  | c :: cs => (dropPref pat (c :: cs)).isSome || isSubL pat cs

/-! ## Python float values -/

/-- Value of a Python float: a finite value (modelled exactly as a rational),
an infinity, or a NaN.  The program never relies on rounding, so finite values
are kept exact. -/
inductive PyVal where
  | num (q : ℚ)
  | pinf
  | ninf
  | nan
deriving DecidableEq

/-- IEEE-style `<=` on Python float values (NaN compares false). -/
def pyLe : PyVal → PyVal → Bool
  | .num a, .num b => a ≤ b
  | .num _, .pinf => true
  | .num _, _ => false
  | .pinf, .pinf => true
  | .pinf, _ => false
  | .ninf, .nan => false
  | .ninf, _ => true
  | .nan, _ => false

/-- IEEE-style `==` on Python float values (NaN is not equal to anything). -/
def pyEq : PyVal → PyVal → Bool
  | .num a, .num b => a = b
  | .pinf, .pinf => true
  | .ninf, .ninf => true
  | _, _ => false

/-- Rational multiplication, routed through `Rat.divInt` so that it evaluates
inside the kernel (the value equals `a * b`, see `qmul_eq_mul`). -/
def qmul (a b : ℚ) : ℚ := Rat.divInt (a.num * b.num) ((a.den : ℤ) * (b.den : ℤ))

/-- Powers of ten as integers. -/
def pow10Z : ℕ → ℤ
  | 0 => 1
  | n + 1 => 10 * pow10Z n

/-- Multiplication by `10 ^ e` for an integer `e` (value of a decimal exponent). -/
def qmulPow10 (q : ℚ) (e : ℤ) : ℚ :=
  Rat.divInt (q.num * pow10Z e.toNat) ((q.den : ℤ) * pow10Z (-e).toNat)

/-- Multiply a Python float value by an exact rational constant (used for the
k/m magnitude multipliers, which are positive). -/
def pyMulQ : PyVal → ℚ → PyVal
  | .num a, c => .num (qmul a c)
  | .pinf, c => if 0 < c then .pinf else if c < 0 then .ninf else .nan
  | .ninf, c => if 0 < c then .ninf else if c < 0 then .pinf else .nan
  | .nan, _ => .nan

/-- Magnitude multiplier for an optional k/m suffix (lines 138-142, 160, 164). -/
def multOf : Option Char → ℚ
  | some c => if c = 'm' then 1000000 else if c = 'k' then 1000 else 1
  | none => 1

/-! ## Digit runs and the two numeric grammars -/

/-- Numeric value of a digit run. -/
def digitsNat (ds : List Char) : ℕ :=
  ds.foldl (fun acc c => 10 * acc + (c.toNat - '0'.toNat)) 0

/-- Value of a decimal literal with integer digits `ds` and fraction digits
`fs` (so the value of `"7.5"` is `decValQ ['7'] ['5'] = 75/10`). -/
def decValQ (ds fs : List Char) : ℚ :=
  Rat.divInt ((digitsNat (ds ++ fs) : ℕ) : ℤ) (pow10Z fs.length)

/-- Maximal leading digit run and the remainder (`\d+` with maximal munch). -/
def takeDigits (cs : List Char) : List Char × List Char :=
  (cs.takeWhile isDigitC, cs.dropWhile isDigitC)

def isDigitOpt : Option Char → Bool
  | some c => isDigitC c
  | none => false

/-- Digit part of a Python numeric literal, with single underscores allowed
between digits: returns the digits (underscores removed) and the remainder. -/
def takeDigitsU : List Char → List Char × List Char
  | [] => ([], [])
  | c :: cs =>
    if isDigitC c then
      if cs.head? = some '_' && isDigitOpt cs.tail.head? then
        match cs with
        | _ :: cs2 =>
          let p := takeDigitsU cs2
          (c :: p.1, p.2)
        | [] => ([c], [])
      else
        let p := takeDigitsU cs
        (c :: p.1, p.2)
    else ([], c :: cs)

/-- Greedy parse of the regex `\d+(?:\.\d+)?` at the head of the input:
the numeric value of the match and the unconsumed remainder. -/
def parseDecimal (cs : List Char) : Option (ℚ × List Char) :=
  let p := takeDigits cs
  if p.1 = [] then none
  else if p.2.head? = some '.' then
    let pf := takeDigits p.2.tail
    if pf.1 = [] then some (decValQ p.1 [], p.2)
    else some (decValQ p.1 pf.1, pf.2)
  else some (decValQ p.1 [], p.2)

/-- `re.fullmatch(r"(\d+(?:\.\d+)?)([mk])?", s)` (line 131): the value of
group 1 and the optional suffix of group 2. -/
def fullmatchNumSuffix (cs : List Char) : Option (ℚ × Option Char) :=
  match parseDecimal cs with
  | none => none
  | some (q, rest) =>
    match rest with
    | [] => some (q, none)
    | [c] => if c = 'm' || c = 'k' then some (q, some c) else none
    | _ => none

/-- Exponent suffix and end-of-input of the Python `float()` grammar. -/
def withExp (q : ℚ) : List Char → Option ℚ
  | [] => some q
  | 'e' :: r =>
    let sp : Bool × List Char :=
      match r with
      | '-' :: t => (true, t)
      | '+' :: t => (false, t)
      | _ => (false, r)
    let pe := takeDigitsU sp.2
    if pe.1 = [] || !pe.2.isEmpty then none
    else
      let e : ℤ := (digitsNat pe.1 : ℤ)
      some (qmulPow10 q (if sp.1 then -e else e))
  | _ => none

/-- Numeric (non-inf, non-nan) part of the Python `float()` grammar:
`(digits [. digits?] | . digits) [e [sign] digits]`, with underscores allowed
between digits. -/
def pyFloatNum (cs : List Char) : Option ℚ :=
  if cs.head? = some '.' then
    let pf := takeDigitsU cs.tail
    if pf.1 = [] then none else withExp (decValQ [] pf.1) pf.2
  else
    let pd := takeDigitsU cs
    if pd.1 = [] then none
    else if pd.2.head? = some '.' then
      let pf := takeDigitsU pd.2.tail
      withExp (decValQ pd.1 pf.1) pf.2
    else withExp (decValQ pd.1 []) pd.2

/-- Python `float(s)` (ASCII fragment): strips whitespace, handles an optional
sign, the words inf/infinity/nan (case-insensitively), and decimal literals
with optional exponent and digit-group underscores.  Returns `none` exactly
where `float` raises `ValueError`. -/
def pyFloatL (cs0 : List Char) : Option PyVal :=
  let cs := toLowerL (stripL cs0)
  let neg : Bool := cs.head? = some '-'
  let body := if cs.head? = some '-' || cs.head? = some '+' then cs.tail else cs
  if body = "inf".data || body = "infinity".data then
    some (if neg then .ninf else .pinf)
  else if body = "nan".data then some .nan
  else (pyFloatNum body).map (fun q => .num (if neg then -q else q))

/-- Source `parse_number` (lines 127-142): empty input is `None`; otherwise the
stripped, lowercased, comma-free text is matched against the suffixed-number
pattern, with a plain `float()` fallback; both failures yield `None`. -/
def parse_number (s : String) : Option PyVal :=
  if s = "" then none
  else
    let cs := removeCommaL (toLowerL (stripL s.data))
    match fullmatchNumSuffix cs with
    | some qsuf => some (.num (qmul qsuf.1 (multOf qsuf.2)))
    | none => pyFloatL cs

/-! ## Query parser (lines 144-180): one executable matcher per regex -/

/-- Ordered alternation `(bed|bedroom|bedrooms)` as a prefix test. -/
def bedAltAt (cs : List Char) : Bool :=
  (dropPref "bed".data cs).isSome || (dropPref "bedroom".data cs).isSome ||
    (dropPref "bedrooms".data cs).isSome

/-- Attempt `(\d+)\s*(bed|bedroom|bedrooms)` anchored at the current position,
returning group 1. -/
def bedroomsAt (cs : List Char) : Option (List Char) :=
  let pd := takeDigits cs
  if pd.1 = [] then none
  else if bedAltAt (pd.2.dropWhile pyWs) then some pd.1 else none

/-- `re.search(r"(\d+)\s*(bed|bedroom|bedrooms)", ql)` (line 154): leftmost
match, group 1. -/
def searchBedrooms : List Char → Option (List Char)
  | [] => none
  | c :: cs =>
    match bedroomsAt (c :: cs) with
    | some ds => some ds
    | none => searchBedrooms cs

/-- Attempt `(lead1|…)\s*([\d\.,]+)\s*([mk])?` anchored at the current
position, returning groups 2 and 3.  The lead-in alternatives are mutually
non-prefixing, so ordered first-prefix selection matches Python backtracking. -/
def numTokAt (leads : List (List Char)) (cs : List Char) : Option (List Char × Option Char) :=
  match leads.findSome? (fun l => dropPref l cs) with
  | none => none
  | some r1 =>
    let pt := (r1.dropWhile pyWs).span (fun c => isDigitC c || c = '.' || c = ',')
    if pt.1 = [] then none
    else
      match pt.2.dropWhile pyWs with
      | 'm' :: _ => some (pt.1, some 'm')
      | 'k' :: _ => some (pt.1, some 'k')
      | _ => some (pt.1, none)

/-- `re.search` of a price pattern (lines 157, 161): leftmost match. -/
def searchNumTok (leads : List (List Char)) : List Char → Option (List Char × Option Char)
  | [] => none
  | c :: cs =>
    match numTokAt leads (c :: cs) with
    | some r => some r
    | none => searchNumTok leads cs

/-- Attempt `(area|sqm)\s*(comp1|…)\s*([\d\.,]+)` anchored at the current
position, returning group 3. -/
def areaTokAt (comps : List (List Char)) (cs : List Char) : Option (List Char) :=
  match ([("area".data : List Char), "sqm".data]).findSome? (fun l => dropPref l cs) with
  | none => none
  | some r1 =>
    match comps.findSome? (fun l => dropPref l (r1.dropWhile pyWs)) with
    | none => none
    | some r3 =>
      let pt := (r3.dropWhile pyWs).span (fun c => isDigitC c || c = '.' || c = ',')
      if pt.1 = [] then none else some pt.1

/-- `re.search` of an area pattern (lines 166, 168): leftmost match. -/
def searchAreaTok (comps : List (List Char)) : List Char → Option (List Char)
  | [] => none
  | c :: cs =>
    match areaTokAt comps (c :: cs) with
    | some r => some r
    | none => searchAreaTok comps cs

/-- Word boundary on the left: position 0, or previous character not a word
character. -/
def prevNonWord : Option Char → Bool
  | none => true
  | some c => !isWordC c

/-- Word boundary on the right of a match: end of input, or next character not
a word character. -/
def nextNonWord : List Char → Bool
  | [] => true
  | c :: _ => !isWordC c

/-- First match of `re.findall(r"\b(\d{2,4})\b", ql)` (line 171): a maximal
digit run of length 2-4 enclosed in word boundaries, scanning left to right. -/
def findBareAux : Option Char → List Char → Option (List Char)
  | _, [] => none
  | prev, c :: cs =>
    if prevNonWord prev && isDigitC c then
      let pd := takeDigits (c :: cs)
      if 2 ≤ pd.1.length && pd.1.length ≤ 4 && nextNonWord pd.2 then some pd.1
      else findBareAux (some c) cs
    else findBareAux (some c) cs

def findFirstBare (cs : List Char) : Option (List Char) := findBareAux none cs

/-- Attempt `[a-z]\d{1,2}\b` at the current position (the left boundary has
already been checked); the two-digit alternative is tried first (greedy). -/
def buildingAt (c : Char) (cs : List Char) : Option (List Char) :=
  if c.isAlpha then
    match cs with
    | d1 :: d2 :: rest =>
      if isDigitC d1 && isDigitC d2 && nextNonWord rest then some [c, d1, d2]
      else if isDigitC d1 && nextNonWord (d2 :: rest) then some [c, d1]
      else none
    | [d1] => if isDigitC d1 then some [c, d1] else none
    | [] => none
  else none

/-- `re.search(r"\b([a-z]\d{1,2})\b", ql, re.IGNORECASE)` (line 175) on the
already-lowercased text. -/
def searchBuildingAux : Option Char → List Char → Option (List Char)
  | _, [] => none
  | prev, c :: cs =>
    if prevNonWord prev then
      match buildingAt c cs with
      | some r => some r
      | none => searchBuildingAux (some c) cs
    else searchBuildingAux (some c) cs

def searchBuilding (cs : List Char) : Option (List Char) := searchBuildingAux none cs

/-- Attempt `-\d{2,3}\b` after the hyphen (greedy: three digits, then two). -/
def unitTail (r : List Char) : Option (List Char) :=
  match r with
  | d1 :: d2 :: d3 :: rest =>
    if isDigitC d1 && isDigitC d2 && isDigitC d3 && nextNonWord rest then some [d1, d2, d3]
    else if isDigitC d1 && isDigitC d2 && nextNonWord (d3 :: rest) then some [d1, d2]
    else none
  | [d1, d2] => if isDigitC d1 && isDigitC d2 then some [d1, d2] else none
  | _ => none

/-- One-building-digit alternative of the unit-code pattern: `-\d{2,3}\b`
immediately after the single digit. -/
def unitOneDigit (c d1 : Char) (rest1 : List Char) : Option (List Char) :=
  match rest1 with
  | '-' :: r2 => (unitTail r2).map (fun t => c :: d1 :: '-' :: t)
  | _ => none

/-- Attempt `[a-z]\d{1,2}-\d{2,3}\b` at the current position (greedy digit
counts with backtracking, as in Python). -/
def unitAt (c : Char) (cs : List Char) : Option (List Char) :=
  if c.isAlpha then
    match cs with
    | d1 :: rest1 =>
      if isDigitC d1 then
        match rest1 with
        | d2 :: '-' :: r2 =>
          if isDigitC d2 then
            match unitTail r2 with
            | some t => some (c :: d1 :: d2 :: '-' :: t)
            | none => unitOneDigit c d1 rest1
          else unitOneDigit c d1 rest1
        | _ => unitOneDigit c d1 rest1
      else none
    | [] => none
  else none

/-- `re.search(r"\b([a-z]\d{1,2}-\d{2,3})\b", ql, re.IGNORECASE)` (line 178)
on the already-lowercased text. -/
def searchUnitAux : Option Char → List Char → Option (List Char)
  | _, [] => none
  | prev, c :: cs =>
    if prevNonWord prev then
      match unitAt c cs with
      | some r => some r
      | none => searchUnitAux (some c) cs
    else searchUnitAux (some c) cs

def searchUnit (cs : List Char) : Option (List Char) := searchUnitAux none cs

/-! ## FilterIntent and parse_query -/

/-- The dict built by `parse_query` (or by the discrete UI state) and consumed
by `apply_filters`; an absent key is `none`. -/
structure FilterIntent where
  project : Option (List String) := none
  status : Option (List String) := none
  bedrooms : Option String := none
  min_price : Option PyVal := none
  max_price : Option PyVal := none
  min_area : Option PyVal := none
  max_area : Option PyVal := none
  exact_area : Option PyVal := none
  building : Option String := none
  unit_no : Option String := none
deriving DecidableEq

deriving instance DecidableEq for Except

def maxLeads : List (List Char) := ["under".data, "<=".data, "less than".data]

def minLeads : List (List Char) := ["over".data, ">=".data, "more than".data, "above".data]

def minAreaComps : List (List Char) := [">=".data, "over".data, "min".data]

def maxAreaComps : List (List Char) := ["<=".data, "under".data, "max".data]

/-- Lines 147-155: project, status and bedrooms extraction. -/
def stageKeywords (ql : List Char) : FilterIntent :=
  let f : FilterIntent := {}
  let f := if isSubL "boho".data ql then { f with project := some ["BOHO"] } else f
  let f := if isSubL "boardwalk".data ql then
      { f with project := some ((f.project.getD []) ++ ["Boardwalk"]) } else f
  let f := if isSubL "available".data ql then { f with status := some ["Available"] } else f
  let f := if isSubL "hold".data ql then { f with status := some ["Hold"] } else f
  match searchBedrooms ql with
  | some ds => { f with bedrooms := some (String.mk ds) }
  | none => f

/-- Value computed at a price-extraction site (lines 159-160 and 163-164):
`float(tok.replace(",", ""))` times the k/m multiplier; `none` models a raised
`ValueError`. -/
def priceFromMatch (tok : List Char) (suf : Option Char) : Option PyVal :=
  (pyFloatL (removeCommaL tok)).map (fun v => pyMulQ v (multOf suf))

/-- Value computed at an area-extraction site (lines 167 and 169):
`float(tok.replace(",", ""))`. -/
def areaFromMatch (tok : List Char) : Option PyVal :=
  pyFloatL (removeCommaL tok)

/-- Lines 161-164: min-price extraction (the second half of the price stage). -/
def stagePriceMin (ql : List Char) (f : FilterIntent) : Except Unit FilterIntent :=
  match searchNumTok minLeads ql with
  | none => .ok f
  | some ts =>
    match priceFromMatch ts.1 ts.2 with
    | none => .error ()
    | some v => .ok { f with min_price := some v }

/-- Lines 157-164: max-price then min-price extraction; a failing `float()`
raises (modelled by `Except.error`). -/
def stagePrice (ql : List Char) (f : FilterIntent) : Except Unit FilterIntent :=
  match searchNumTok maxLeads ql with
  | none => stagePriceMin ql f
  | some ts =>
    match priceFromMatch ts.1 ts.2 with
    | none => .error ()
    | some v => stagePriceMin ql { f with max_price := some v }

/-- Lines 168-169: max-area extraction (the second half of the area stage). -/
def stageAreaMax (ql : List Char) (f : FilterIntent) : Except Unit FilterIntent :=
  match searchAreaTok maxAreaComps ql with
  | none => .ok f
  | some t =>
    match areaFromMatch t with
    | none => .error ()
    | some v => .ok { f with max_area := some v }

/-- Lines 166-169: min-area then max-area extraction. -/
def stageArea (ql : List Char) (f : FilterIntent) : Except Unit FilterIntent :=
  match searchAreaTok minAreaComps ql with
  | none => stageAreaMax ql f
  | some t =>
    match areaFromMatch t with
    | none => .error ()
    | some v => stageAreaMax ql { f with min_area := some v }

/-- Lines 171-173: exact-area fallback from the first bare 2-4 digit number,
suppressed when a bedrooms or price constraint was extracted. -/
def stageExact (ql : List Char) (f : FilterIntent) : Except Unit FilterIntent :=
  match findFirstBare ql with
  | none => .ok f
  | some ds =>
    if f.bedrooms = none && f.min_price = none && f.max_price = none then
      match pyFloatL ds with
      | none => .error ()
      | some v => .ok { f with exact_area := some v }
    else .ok f

/-- Lines 175-179: building and unit code extraction (uppercased groups). -/
def stageCodes (ql : List Char) (f : FilterIntent) : FilterIntent :=
  let f := match searchBuilding ql with
    | some l => { f with building := some (String.mk (toUpperL l)) }
    | none => f
  match searchUnit ql with
  | some l => { f with unit_no := some (String.mk (toUpperL l)) }
  | none => f

/-- Source `parse_query` (lines 144-180); the stages mirror the source order,
and an uncaught `ValueError` from `float` is `Except.error`, which aborts the
remaining extraction exactly as a raised exception would. -/
def parse_query (q : String) : Except Unit FilterIntent :=
  let ql := toLowerL q.data
  match stagePrice ql (stageKeywords ql) with
  | .error e => .error e
  | .ok f =>
    match stageArea ql f with
    | .error e => .error e
    | .ok f =>
      match stageExact ql f with
      | .error e => .error e
      | .ok f => .ok (stageCodes ql f)

/-! ## Filter engine (lines 182-196) over the canonical record schema -/

/-- One row of the canonical unit table produced by `load_all_units`.  The two
uppercase shadow columns `_unit_upper` and `_building_upper` are the fields
`unit_upper` and `building_upper` (Lean identifiers cannot comfortably start
with an underscore); the column-level model `Df` below keeps the underscore
names as strings. -/
structure UnitRecord where
  project : Option String := none
  building : Option String := none
  unit_no : Option String := none
  floor : Option String := none
  configuration : Option String := none
  unit_type : Option String := none
  selling_area : Option PyVal := none
  land_area : Option PyVal := none
  garden_area : Option PyVal := none
  terrace_area : Option PyVal := none
  price : Option PyVal := none
  status : Option String := none
  row_no : Option String := none
  unit_upper : String := ""
  building_upper : String := ""
deriving DecidableEq

/-- pandas `Series.isin` on a possibly-missing string cell (a missing value is
never a member of a list of strings). -/
def optIn (o : Option String) (l : List String) : Bool :=
  match o with
  | some s => l.contains s
  | none => false

/-- Attempt the tail `N\s*bedroom` of the bedrooms regex at the current
position (both pattern and text already lowercased; the trailing `s?` cannot
affect whether a match exists). -/
def bedCore (n cs : List Char) : Bool :=
  match dropPref n cs with
  | none => false
  | some r => (dropPref "bedroom".data (r.dropWhile pyWs)).isSome

def bedSearchAux (n : List Char) : List Char → Bool
  | [] => false
  | c :: cs => (pyWs c && bedCore n cs) || bedSearchAux n cs

/-- `re.search(rf"(^|\s){n}\s*Bedrooms?", cfg, case-insensitive)` (lines
187-188): the `^` alternative at position 0, or a whitespace character
followed by the core pattern anywhere. -/
def bedSearch (n cfg : List Char) : Bool :=
  bedCore n cfg || bedSearchAux n cfg

/-- One line of `apply_filters`: `if key in f: out = out[mask]` — when the
constraint is present the rows are filtered by its predicate, otherwise the
table passes through unchanged. -/
def applyStage {α : Type} (o : Option α) (g : α → UnitRecord → Bool)
    (l : List UnitRecord) : List UnitRecord :=
  match o with
  | some v => l.filter (g v)
  | none => l

/-- Source `apply_filters` (lines 182-196): one boolean-mask row filter per
constraint present in the intent, composed conjunctively; missing numeric
cells are `fillna(0)`. -/
def apply_filters (df : List UnitRecord) (f : FilterIntent) : List UnitRecord :=
  let out := df
  let out := applyStage f.project (fun ps r => optIn r.project ps) out
  let out := applyStage f.status (fun ss r => optIn r.status ss) out
  let out := applyStage f.bedrooms
    (fun n r => bedSearch n.data (toLowerL (r.configuration.getD "").data)) out
  let out := applyStage f.min_price (fun b r => pyLe b (r.price.getD (.num 0))) out
  let out := applyStage f.max_price (fun b r => pyLe (r.price.getD (.num 0)) b) out
  let out := applyStage f.min_area (fun b r => pyLe b (r.selling_area.getD (.num 0))) out
  let out := applyStage f.max_area (fun b r => pyLe (r.selling_area.getD (.num 0)) b) out
  let out := applyStage f.exact_area (fun v r => pyEq (r.selling_area.getD (.num 0)) v) out
  let out := applyStage f.building (fun b r => r.building_upper == b) out
  applyStage f.unit_no (fun u r => r.unit_upper == u) out

/-- Row predicate of one conditional mask: the constraint's predicate when
present, vacuously true when absent. -/
def stagePred {α : Type} (o : Option α) (g : α → UnitRecord → Bool) (r : UnitRecord) : Bool :=
  match o with
  | some v => g v r
  | none => true

/-! Per-dimension predicates: each one is the row predicate of the
corresponding mask in `apply_filters` when the constraint is present, and
vacuously true when it is absent. -/

def projOk (f : FilterIntent) (r : UnitRecord) : Bool :=
  stagePred f.project (fun ps r => optIn r.project ps) r

def statusOk (f : FilterIntent) (r : UnitRecord) : Bool :=
  stagePred f.status (fun ss r => optIn r.status ss) r

def bedOk (f : FilterIntent) (r : UnitRecord) : Bool :=
  stagePred f.bedrooms (fun n r => bedSearch n.data (toLowerL (r.configuration.getD "").data)) r

def minPriceOk (f : FilterIntent) (r : UnitRecord) : Bool :=
  stagePred f.min_price (fun b r => pyLe b (r.price.getD (.num 0))) r

def maxPriceOk (f : FilterIntent) (r : UnitRecord) : Bool :=
  stagePred f.max_price (fun b r => pyLe (r.price.getD (.num 0)) b) r

def minAreaOk (f : FilterIntent) (r : UnitRecord) : Bool :=
  stagePred f.min_area (fun b r => pyLe b (r.selling_area.getD (.num 0))) r

def maxAreaOk (f : FilterIntent) (r : UnitRecord) : Bool :=
  stagePred f.max_area (fun b r => pyLe (r.selling_area.getD (.num 0)) b) r

def exactAreaOk (f : FilterIntent) (r : UnitRecord) : Bool :=
  stagePred f.exact_area (fun v r => pyEq (r.selling_area.getD (.num 0)) v) r

def buildingOk (f : FilterIntent) (r : UnitRecord) : Bool :=
  stagePred f.building (fun b r => r.building_upper == b) r

def unitOk (f : FilterIntent) (r : UnitRecord) : Bool :=
  stagePred f.unit_no (fun u r => r.unit_upper == u) r

/-- Conjunction of all ten per-dimension predicates (nested in the order the
masks compose, outermost mask first). -/
def matchesIntent (f : FilterIntent) (r : UnitRecord) : Bool :=
  unitOk f r && (buildingOk f r && (exactAreaOk f r && (maxAreaOk f r && (minAreaOk f r &&
    (maxPriceOk f r && (minPriceOk f r && (bedOk f r && (statusOk f r && projOk f r))))))))

/-! ## Column-level table model (schema normalizer, export/display views) -/

/-- One pandas cell: missing, a string, or a number. -/
inductive Cell where
  | na
  | str (s : String)
  | num (v : PyVal)
deriving DecidableEq

/-- A pandas data frame: named columns and positional rows (row `i` has one
cell per column, in column order). -/
structure Df where
  cols : List String
  rows : List (List Cell)
deriving DecidableEq

/-- Cell of a row under a column name (missing column reads as missing). -/
def cellAt (cols : List String) (row : List Cell) (c : String) : Cell :=
  match cols.findIdx? (fun x => x == c) with
  | some i => row.getD i .na
  | none => .na

/-- `df[[c for c in keep if c in df.columns]].rename(columns=keep)`
(lines 101, 103): select the mapped raw columns in mapping order and rename
them to the canonical names. -/
def selectRename (keep : List (String × String)) (df : Df) : Df :=
  let kept := keep.filter (fun p => df.cols.contains p.1)
  { cols := kept.map (fun p => p.2),
    rows := df.rows.map (fun row => kept.map (fun p => cellAt df.cols row p.1)) }

/-- `df[c] = constant` for a fresh column (lines 102, 104). -/
def addConstCol (c : String) (v : Cell) (df : Df) : Df :=
  { cols := df.cols ++ [c], rows := df.rows.map (fun row => row ++ [v]) }

/-- Apply a cell transformation to every column of a row (the object-column
loop of lines 33-35, modelled per cell: only string cells are affected). -/
def rowMapAll (g : Cell → Cell) (row : List Cell) : List Cell := row.map g

/-- Apply a cell transformation to the cell of one named column of a row. -/
def rowMapCol (cols : List String) (c : String) (g : Cell → Cell) (row : List Cell) :
    List Cell :=
  (cols.zip row).map (fun p => if p.1 = c then g p.2 else p.2)

/-- Lines 34-35 on one cell: `astype(str).str.strip()` then the literal
string "nan" replaced by missing.  A missing cell round-trips to missing. -/
def stripNanCell : Cell → Cell
  | .str s =>
    let t := String.mk (stripL s.data)
    if t = "nan" then .na else .str t
  | c => c

/-- `\s+` collapsed to a single space (lines 38, 40). -/
def collapseWs : List Char → List Char
  | [] => []
  | c :: cs =>
    if pyWs c then ' ' :: collapseWs (cs.dropWhile pyWs) else c :: collapseWs cs
termination_by cs => cs.length
decreasing_by
  all_goals simp
  calc (List.dropWhile pyWs cs).length ≤ cs.length :=
        List.Sublist.length_le (List.dropWhile_sublist pyWs)
    _ < cs.length + 1 := Nat.lt_succ_self cs.length

def collapseWsCell : Cell → Cell
  | .str s => .str (String.mk (collapseWs s.data))
  | c => c

/-- `coerce_numeric` (lines 28-29) on one cell: commas stripped, surrounding
whitespace stripped, then `pd.to_numeric(..., errors="coerce")` (same literal
grammar as `float`); failures become missing. -/
def coerceNumericCell : Cell → Cell
  | .na => .na
  | .str s =>
    match pyFloatL (stripL (removeCommaL s.data)) with
    | some v => .num v
    | none => .na
  | .num v => .num v

/-- `fillna(d)` on one cell. -/
def fillnaCell (d : Cell) : Cell → Cell
  | .na => d
  | c => c

/-- Per-row transformations of `cleanup_cols` (lines 31-48); the column
conditions (`if c in df.columns`) depend only on the column list, which the
row operations never change. -/
def cleanupRow (cols : List String) (row : List Cell) : List Cell :=
  let row := rowMapAll stripNanCell row
  let row := if cols.contains "floor" then rowMapCol cols "floor" collapseWsCell row else row
  let row := if cols.contains "configuration" then
      rowMapCol cols "configuration" collapseWsCell row else row
  let row := (["price", "selling_area", "land_area", "garden_area", "terrace_area"]).foldl
    (fun r c => if cols.contains c then rowMapCol cols c coerceNumericCell r else r) row
  if cols.contains "status" then rowMapCol cols "status" (fillnaCell (.str "Available")) row
  else row

/-- Source `cleanup_cols` (lines 31-48): the per-row transformations applied
to every row; the column list is unchanged. -/
def cleanup_cols (df : Df) : Df :=
  { cols := df.cols, rows := df.rows.map (cleanupRow df.cols) }

/-- `df.reindex(columns=target)` (line 111, 120): rearrange columns, filling
missing ones with missing cells. -/
def reindexCols (target : List String) (df : Df) : Df :=
  { cols := target, rows := df.rows.map (fun row => target.map (cellAt df.cols row)) }

/-- `dropna(how="all")` (line 112). -/
def dropAllNaRows (df : Df) : Df :=
  { cols := df.cols, rows := df.rows.filter (fun row => !row.all (fun c => c == Cell.na)) }

/-- Code-point lexicographic comparison (Python string `<`). -/
def ltChars : List Char → List Char → Bool
  | [], [] => false
  | [], _ :: _ => true
  | _ :: _, [] => false
  | a :: as, b :: bs => if a < b then true else if b < a then false else ltChars as bs

def ltStr (s t : String) : Bool := ltChars s.data t.data

/-- Ascending insertion sort on strings, modelling Python `sorted`. -/
def insertStr (s : String) : List String → List String
  | [] => [s]
  | t :: ts => if ltStr s t then s :: t :: ts else t :: insertStr s ts

def sortStrs (l : List String) : List String := l.foldr insertStr []

/-- `str(x)` of one cell, as used by `astype(str)` (a missing cell prints as
"nan"; the numeric rendering is only ever applied to string-typed columns in
this program). -/
def pyValStr : PyVal → String
  | .num q => if q.den = 1 then toString q.num ++ ".0" else toString q.num ++ "/" ++ toString q.den
  | .pinf => "inf"
  | .ninf => "-inf"
  | .nan => "nan"

def pyCellStr : Cell → String
  | .na => "nan"
  | .str s => s
  | .num v => pyValStr v

/-- `units[name] = units[src].astype(str).str.upper()` (lines 123-124). -/
def addUpperShadow (name src : String) (df : Df) : Df :=
  { cols := df.cols ++ [name],
    rows := df.rows.map (fun row =>
      row ++ [.str (String.mk (toUpperL (pyCellStr (cellAt df.cols row src)).data))]) }

/-- Column maps `BW_KEEP` and `BOHO_KEEP` (lines 51-75), in source order. -/
def BW_KEEP : List (String × String) :=
  [("#", "row_no"), ("Building No.#", "building"), ("Unit No.#", "unit_no"),
   ("Floor No.#", "floor"), ("Configuration", "configuration"),
   ("Selling Area", "selling_area"), ("Land Area", "land_area"),
   ("Open Terrace\n Area", "terrace_area"), ("10 Years 0%", "price"), ("Status", "status")]

def BOHO_KEEP : List (String × String) :=
  [("#", "row_no"), ("Unit Type", "unit_type"), ("Building No#", "building"),
   ("Unit No.#", "unit_no"), ("Floor No.#", "floor"), ("Configuration", "configuration"),
   ("Selling Area", "selling_area"), ("Land Area", "land_area"),
   ("Garden area", "garden_area"), ("Original Value", "price"), ("Status", "status")]

/-- `key_order` of lines 115-118. -/
def keyOrder : List String :=
  ["project", "building", "unit_no", "floor", "configuration", "unit_type",
   "selling_area", "land_area", "garden_area", "terrace_area", "price", "status"]

/-- Source `load_all_units` (lines 95-125) from the point where the two raw
sheets have been fetched; the fetch and header-row heuristic
(`try_load_sheet`, excluded I/O) supply `bw_raw` and `boho_raw`. -/
def load_all_units (bw_raw boho_raw : Df) : Df :=
  let bw := addConstCol "project" (.str "Boardwalk") (selectRename BW_KEEP bw_raw)
  let boho := addConstCol "project" (.str "BOHO") (selectRename BOHO_KEEP boho_raw)
  let bw := cleanup_cols bw
  let boho := cleanup_cols boho
  let all_cols := sortStrs ((bw.cols ++ boho.cols).dedup)
  let bw := reindexCols all_cols bw
  let boho := reindexCols all_cols boho
  let units := dropAllNaRows { cols := all_cols, rows := bw.rows ++ boho.rows }
  let ordered := keyOrder ++ units.cols.filter (fun c => !keyOrder.contains c)
  let units := reindexCols (ordered.filter (fun c => units.cols.contains c)) units
  let units := addUpperShadow "_unit_upper" "unit_no" units
  addUpperShadow "_building_upper" "building" units

/-- Python `c.startswith("_")`. -/
def startsUnderscore (c : String) : Bool :=
  match c.data with
  | '_' :: _ => true
  | _ => false

/-- Line 300: the CSV download drops every column whose name starts with an
underscore before encoding. -/
def csvDownloadView (df : Df) : Df :=
  { cols := df.cols.filter (fun c => !startsUnderscore c),
    rows := df.rows.map (fun row =>
      ((df.cols.zip row).filter (fun p => !startsUnderscore p.1)).map (fun p => p.2)) }

/-- Line 264: `st.dataframe(chat_df, ...)` renders every column of the frame
it is given — the displayed view is the frame itself. -/
def displayedView (df : Df) : Df := df

/-! Concrete example sheets: Boardwalk raw data carries a Status column with a
missing value; the BOHO raw data has no Status column at all. -/

def bwRawEx : Df :=
  { cols := ["Building No.#", "Unit No.#", "10 Years 0%", "Status"],
    rows := [[.str "C1", .str "C1-002", .str "10,000,000", .na]] }

def bohoRawEx : Df :=
  { cols := ["Building No#", "Unit No.#", "Original Value"],
    rows := [[.str "B1", .str "B1-001", .str "5,000,000"]] }

/-- The unified table loaded from the two example sheets. -/
def unitsEx : Df := load_all_units bwRawEx bohoRawEx

/-- A price-site match is float-valid: `float(tok.replace(",", ""))` would
succeed on its numeric group (vacuously true when the pattern did not match). -/
def siteOkP (o : Option (List Char × Option Char)) : Bool :=
  match o with
  | none => true
  | some ts => (pyFloatL (removeCommaL ts.1)).isSome

/-- An area-site match is float-valid (vacuously true when absent). -/
def siteOkA (o : Option (List Char)) : Bool :=
  match o with
  | none => true
  | some t => (pyFloatL (removeCommaL t)).isSome

/-- A record with an absent price and status "Available". -/
def rAbs : UnitRecord := { price := none, status := some "Available" }

/-- A record with price 10,000,000 and status "Hold". -/
def rTen : UnitRecord := { price := some (.num 10000000), status := some "Hold" }

/-- Intent `B` carries a superset of the constraints of intent `A`: wherever
`A` constrains a dimension, `B` has the same constraint. -/
def Extends (B A : FilterIntent) : Prop :=
  (A.project = none ∨ B.project = A.project) ∧
  (A.status = none ∨ B.status = A.status) ∧
  (A.bedrooms = none ∨ B.bedrooms = A.bedrooms) ∧
  (A.min_price = none ∨ B.min_price = A.min_price) ∧
  (A.max_price = none ∨ B.max_price = A.max_price) ∧
  (A.min_area = none ∨ B.min_area = A.min_area) ∧
  (A.max_area = none ∨ B.max_area = A.max_area) ∧
  (A.exact_area = none ∨ B.exact_area = A.exact_area) ∧
  (A.building = none ∨ B.building = A.building) ∧
  (A.unit_no = none ∨ B.unit_no = A.unit_no)

instance (B A : FilterIntent) : Decidable (Extends B A) := by
  unfold Extends
  infer_instance

/-- Rewriting step: a conditionally applied mask is one filter with a
conditionally vacuous predicate. -/
theorem applyStage_eq {α : Type} (o : Option α) (g : α → UnitRecord → Bool)
    (l : List UnitRecord) :
    applyStage o g l = l.filter (stagePred o g) := by
  cases o with
  | none =>
    have h : stagePred (none : Option α) g = fun _ => true := by
      funext r
      rfl
    simp [applyStage, h]
  | some v => rfl

/-- `apply_filters` is a single filter by the conjunction of the per-dimension
predicates. -/
theorem apply_filters_eq_filter (df : List UnitRecord) (f : FilterIntent) :
    apply_filters df f = df.filter (matchesIntent f) := by
  unfold apply_filters
  simp only [applyStage_eq, List.filter_filter]
  apply List.filter_congr
  intro r _
  rfl


/-! ## Cell-tracking lemmas for the normalizer -/

theorem rowMapAll_length (g : Cell → Cell) (row : List Cell) :
    (rowMapAll g row).length = row.length := by
  simp [rowMapAll]

theorem rowMapCol_length (cols : List String) (c : String) (g : Cell → Cell)
    (row : List Cell) :
    (rowMapCol cols c g row).length = min cols.length row.length := by
  simp [rowMapCol]

/-- A transformed row read at an in-bounds index. -/
theorem rowMapCol_getD (cols : List String) (row : List Cell) (c : String) (g : Cell → Cell)
    (i : ℕ) (h1 : i < cols.length) (h2 : i < row.length) :
    (rowMapCol cols c g row).getD i .na =
      if cols.getD i "" = c then g (row.getD i .na) else row.getD i .na := by
  have hzl : i < (cols.zip row).length := by
    simp only [List.length_zip]
    omega
  have hml : i < ((cols.zip row).map
      (fun p => if p.1 = c then g p.2 else p.2)).length := by
    simpa using hzl
  rw [rowMapCol, List.getD_eq_getElem _ _ hml, List.getElem_map, List.getElem_zip,
    List.getD_eq_getElem _ _ h1, List.getD_eq_getElem _ _ h2]

/-- `cellAt` after a whole-row cell map, for transformations fixing missing
cells. -/
theorem cellAt_rowMapAll (cols : List String) (row : List Cell) (c : String)
    (g : Cell → Cell) (hg : g .na = .na) :
    cellAt cols (rowMapAll g row) c = g (cellAt cols row c) := by
  unfold cellAt rowMapAll
  cases h : cols.findIdx? (fun x => x == c) with
  | none => simp [hg]
  | some i =>
    calc (row.map g).getD i .na = (row.map g).getD i (g .na) := by rw [hg]
      _ = g (row.getD i .na) := List.getD_map _ _ _

/-- The column name found by `findIdx?` really is the name searched for. -/
theorem findIdx?_name (cols : List String) (c : String) (i : ℕ)
    (h : cols.findIdx? (fun x => x == c) = some i) :
    i < cols.length ∧ cols.getD i "" = c := by
  obtain ⟨hlt, hp, -⟩ := List.findIdx?_eq_some_iff_getElem.mp h
  refine ⟨hlt, ?_⟩
  rw [List.getD_eq_getElem _ _ hlt]
  exact eq_of_beq hp

/-- `cellAt` at a column other than the transformed one is unchanged. -/
theorem cellAt_rowMapCol_ne (cols : List String) (row : List Cell) (c c2 : String)
    (g : Cell → Cell) (hlen : row.length = cols.length) (hne : c2 ≠ c) :
    cellAt cols (rowMapCol cols c g row) c2 = cellAt cols row c2 := by
  unfold cellAt
  cases h : cols.findIdx? (fun x => x == c2) with
  | none => rfl
  | some i =>
    obtain ⟨hlt, hcol⟩ := findIdx?_name cols c2 i h
    dsimp only
    rw [rowMapCol_getD cols row c g i hlt (by omega), hcol, if_neg hne]

/-- `cellAt` at the transformed column applies the transformation. -/
theorem cellAt_rowMapCol_self (cols : List String) (row : List Cell) (c : String)
    (g : Cell → Cell) (hlen : row.length = cols.length)
    (hcont : cols.contains c = true) :
    cellAt cols (rowMapCol cols c g row) c = g (cellAt cols row c) := by
  unfold cellAt
  cases h : cols.findIdx? (fun x => x == c) with
  | none =>
    rw [List.findIdx?_eq_none_iff] at h
    have hmem : c ∈ cols := List.mem_of_elem_eq_true hcont
    have := h c hmem
    simp at this
  | some i =>
    obtain ⟨hlt, hcol⟩ := findIdx?_name cols c i h
    dsimp only
    rw [rowMapCol_getD cols row c g i hlt (by omega), hcol, if_pos rfl]

/-- The numeric-coercion fold of `cleanup_cols` touches neither the status
column nor the row length. -/
theorem foldl_coerce_status (cols : List String) (names : List String) (r : List Cell)
    (hlen : r.length = cols.length) (hns : ∀ n ∈ names, n ≠ "status") :
    cellAt cols
        (names.foldl
          (fun r c => if cols.contains c then rowMapCol cols c coerceNumericCell r else r) r)
        "status" = cellAt cols r "status" ∧
      (names.foldl
          (fun r c => if cols.contains c then rowMapCol cols c coerceNumericCell r else r)
          r).length = cols.length := by
  induction names generalizing r with
  | nil => exact ⟨rfl, hlen⟩
  | cons a as ih =>
    simp only [List.foldl_cons]
    have hstep : cellAt cols (if cols.contains a then rowMapCol cols a coerceNumericCell r
          else r) "status" = cellAt cols r "status" ∧
        (if cols.contains a then rowMapCol cols a coerceNumericCell r else r).length
          = cols.length := by
      split
      · refine ⟨cellAt_rowMapCol_ne cols r a "status" _ hlen ?_, ?_⟩
        · exact fun hco => hns a (List.mem_cons_self a as) hco.symm
        · rw [rowMapCol_length]
          omega
      · exact ⟨rfl, hlen⟩
    obtain ⟨h1, h2⟩ := ih _ hstep.2 (fun n hn => hns n (List.mem_cons_of_mem a hn))
    exact ⟨h1.trans hstep.1, h2⟩

/-- The status cell after `cleanupRow`: the whole-row strip/nan stage applies,
the floor/configuration/numeric stages leave it alone, and the status stage
replaces a missing value by "Available". -/
theorem cleanupRow_status (cols : List String) (row : List Cell)
    (hlen : row.length = cols.length) (hst : cols.contains "status" = true) :
    cellAt cols (cleanupRow cols row) "status" =
      fillnaCell (.str "Available") (stripNanCell (cellAt cols row "status")) := by
  unfold cleanupRow
  have hlen1 : (rowMapAll stripNanCell row).length = cols.length := by
    rw [rowMapAll_length]; exact hlen
  set r1 := rowMapAll stripNanCell row with hr1
  have s2 : cellAt cols (if cols.contains "floor" then
        rowMapCol cols "floor" collapseWsCell r1 else r1) "status" = cellAt cols r1 "status" ∧
      (if cols.contains "floor" then rowMapCol cols "floor" collapseWsCell r1 else r1).length
        = cols.length := by
    split
    · refine ⟨cellAt_rowMapCol_ne cols r1 "floor" "status" _ hlen1 (by decide), ?_⟩
      rw [rowMapCol_length]; omega
    · exact ⟨rfl, hlen1⟩
  set r2 := if cols.contains "floor" then rowMapCol cols "floor" collapseWsCell r1 else r1
    with hr2
  have s3 : cellAt cols (if cols.contains "configuration" then
        rowMapCol cols "configuration" collapseWsCell r2 else r2) "status"
        = cellAt cols r2 "status" ∧
      (if cols.contains "configuration" then
        rowMapCol cols "configuration" collapseWsCell r2 else r2).length = cols.length := by
    split
    · refine ⟨cellAt_rowMapCol_ne cols r2 "configuration" "status" _ s2.2 (by decide), ?_⟩
      rw [rowMapCol_length]; omega
    · exact ⟨rfl, s2.2⟩
  set r3 := if cols.contains "configuration" then
      rowMapCol cols "configuration" collapseWsCell r2 else r2 with hr3
  have s4 := foldl_coerce_status cols
    ["price", "selling_area", "land_area", "garden_area", "terrace_area"] r3 s3.2
    (by intro n hn; fin_cases hn <;> decide)
  set r4 := (["price", "selling_area", "land_area", "garden_area", "terrace_area"]).foldl
    (fun r c => if cols.contains c then rowMapCol cols c coerceNumericCell r else r) r3
    with hr4
  rw [if_pos hst]
  rw [cellAt_rowMapCol_self cols r4 "status" _ s4.2 hst]
  rw [s4.1, s3.1, s2.1]
  rw [cellAt_rowMapAll cols row "status" stripNanCell rfl]

/-! ## Character-class and digit-run lemmas for the numeric grammars -/

theorem digit_ne (c d : Char) (hc : isDigitC c = true) (hd : isDigitC d = false) : c ≠ d := by
  intro he
  rw [he, hd] at hc
  exact Bool.false_ne_true hc

theorem digit_not_ws (c : Char) (hc : isDigitC c = true) : pyWs c = false := by
  cases hw : pyWs c
  · rfl
  · exfalso
    simp only [pyWs, Bool.or_eq_true, decide_eq_true_eq] at hw
    rcases hw with ((((rfl | rfl) | rfl) | rfl) | rfl) | rfl <;> exact absurd hc (by decide)

theorem digit_toLower (c : Char) (hc : isDigitC c = true) : c.toLower = c := by
  simp only [isDigitC, Char.isDigit, Bool.and_eq_true, decide_eq_true_eq] at hc
  have h57 : c.toNat ≤ 57 := UInt32.toNat_le_of_le (by decide) hc.2
  unfold Char.toLower
  rw [if_neg]
  rintro ⟨h65, _⟩
  omega

theorem map_eq_self {α : Type} (f : α → α) :
    ∀ (l : List α), (∀ c ∈ l, f c = c) → l.map f = l
  | [], _ => rfl
  | a :: t, h => by
    rw [List.map_cons, h a (List.mem_cons_self a t),
      map_eq_self f t (fun c hc => h c (List.mem_cons_of_mem a hc))]

theorem dropWhile_eq_self_of_not {α : Type} (p : α → Bool) (l : List α)
    (h : ∀ c ∈ l, p c = false) : l.dropWhile p = l := by
  cases l with
  | nil => rfl
  | cons a t =>
    rw [List.dropWhile_cons]
    simp [h a (List.mem_cons_self a t)]

theorem stripL_eq_self (cs : List Char) (h : ∀ c ∈ cs, pyWs c = false) : stripL cs = cs := by
  unfold stripL
  rw [dropWhile_eq_self_of_not _ _ h,
    dropWhile_eq_self_of_not _ _ (fun c hc => h c (by simpa using hc)),
    List.reverse_reverse]

theorem toLowerL_eq_self (cs : List Char) (h : ∀ c ∈ cs, c.toLower = c) : toLowerL cs = cs :=
  map_eq_self _ cs h

/-- `\d+` maximal munch around an explicit split: all-digit prefix, non-digit
(or empty) remainder. -/
theorem takeDigits_append (ds r : List Char) (hd : ∀ c ∈ ds, isDigitC c = true)
    (hr : r.head? = none ∨ ∃ c, r.head? = some c ∧ isDigitC c = false) :
    takeDigits (ds ++ r) = (ds, r) := by
  induction ds with
  | nil =>
    rcases hr with hnone | ⟨c, hc, hcd⟩
    · rw [List.head?_eq_none_iff] at hnone
      subst hnone
      rfl
    · cases r with
      | nil => simp at hc
      | cons a t =>
        simp only [List.head?_cons, Option.some.injEq] at hc
        subst hc
        simp [takeDigits, List.takeWhile_cons, List.dropWhile_cons, hcd]
  | cons d ds' ih =>
    have hdd := hd d (List.mem_cons_self d ds')
    have ht := ih (fun c hc => hd c (List.mem_cons_of_mem d hc))
    simp only [takeDigits] at ht ⊢
    rw [Prod.mk.injEq] at ht
    simp [List.takeWhile_cons, List.dropWhile_cons, hdd, ht.1, ht.2]

/-- `takeDigitsU` agrees with the same split when the remainder does not start
with an underscore. -/
theorem takeDigitsU_digits (ds r : List Char) (hd : ∀ c ∈ ds, isDigitC c = true)
    (hr : r.head? = none ∨ ∃ c, r.head? = some c ∧ isDigitC c = false ∧ c ≠ '_') :
    takeDigitsU (ds ++ r) = (ds, r) := by
  induction ds with
  | nil =>
    rcases hr with hnone | ⟨c, hc, hcd, _⟩
    · rw [List.head?_eq_none_iff] at hnone
      subst hnone
      rfl
    · cases r with
      | nil => simp at hc
      | cons a t =>
        simp only [List.head?_cons, Option.some.injEq] at hc
        subst hc
        rw [takeDigitsU.eq_def]
        simp [hcd]
  | cons d ds' ih =>
    have hdd := hd d (List.mem_cons_self d ds')
    have ih' := ih (fun c hc => hd c (List.mem_cons_of_mem d hc))
    have hcond : ((ds' ++ r).head? = some '_' && isDigitOpt (ds' ++ r).tail.head?) = false := by
      cases ds' with
      | cons d2 ds2 =>
        have : d2 ≠ '_' := digit_ne d2 '_' (hd d2 (by simp)) (by decide)
        simp [this]
      | nil =>
        simp only [List.nil_append]
        rcases hr with hnone | ⟨c, hc, _, hcu⟩
        · rw [List.head?_eq_none_iff] at hnone
          subst hnone
          rfl
        · cases r with
          | nil => simp at hc
          | cons a t =>
            simp only [List.head?_cons, Option.some.injEq] at hc
            subst hc
            simp [hcu]
    rw [List.cons_append, takeDigitsU.eq_def]
    simp only [hdd, hcond]
    simp [ih']

/-- The first unconsumed element of `dropWhile` fails the predicate. -/
theorem head?_dropWhile_not {α : Type} (p : α → Bool) (l : List α) :
    ∀ a, (l.dropWhile p).head? = some a → p a = false := by
  induction l with
  | nil => simp
  | cons x t ih =>
    rw [List.dropWhile_cons]
    by_cases hx : p x = true
    · simpa [hx] using ih
    · intro a ha
      rw [if_neg hx] at ha
      simp only [List.head?_cons, Option.some.injEq] at ha
      subst ha
      cases hpx : p x with
      | false => rfl
      | true => exact absurd hpx hx

/-- Inversion of a complete `\d+(?:\.\d+)?` match: the input is an all-digit
run, optionally followed by a dot and a second all-digit run. -/
theorem parseDecimal_inv (cs : List Char) (q : ℚ) (h : parseDecimal cs = some (q, [])) :
    ∃ ds fs, (∀ c ∈ ds, isDigitC c = true) ∧ ds ≠ [] ∧ (∀ c ∈ fs, isDigitC c = true) ∧
      (fs = [] ∧ cs = ds ∨ fs ≠ [] ∧ cs = ds ++ '.' :: fs) ∧ q = decValQ ds fs := by
  unfold parseDecimal at h
  simp only [takeDigits] at h
  by_cases h1 : cs.takeWhile isDigitC = []
  · rw [if_pos h1] at h
    exact absurd h (by simp)
  · rw [if_neg h1] at h
    by_cases h2 : (cs.dropWhile isDigitC).head? = some '.'
    · rw [if_pos h2] at h
      by_cases h3 : (cs.dropWhile isDigitC).tail.takeWhile isDigitC = []
      · rw [if_pos h3] at h
        simp only [Option.some.injEq, Prod.mk.injEq] at h
        rw [h.2] at h2
        exact absurd h2 (by simp)
      · rw [if_neg h3] at h
        simp only [Option.some.injEq, Prod.mk.injEq] at h
        refine ⟨cs.takeWhile isDigitC, (cs.dropWhile isDigitC).tail.takeWhile isDigitC,
          fun c hc => List.mem_takeWhile_imp hc, h1,
          fun c hc => List.mem_takeWhile_imp hc, Or.inr ⟨h3, ?_⟩, h.1.symm⟩
        cases hdrop : cs.dropWhile isDigitC with
        | nil => rw [hdrop] at h2; exact absurd h2 (by simp)
        | cons a t =>
          rw [hdrop] at h2
          simp only [List.head?_cons, Option.some.injEq] at h2
          subst h2
          have htail : t.takeWhile isDigitC ++ t.dropWhile isDigitC = t :=
            List.takeWhile_append_dropWhile _ _
          rw [hdrop] at h
          simp only [List.tail_cons] at h ⊢
          rw [h.2, List.append_nil] at htail
          calc cs = cs.takeWhile isDigitC ++ cs.dropWhile isDigitC :=
                (List.takeWhile_append_dropWhile _ _).symm
            _ = cs.takeWhile isDigitC ++ '.' :: t.takeWhile isDigitC := by rw [hdrop, htail]
    · rw [if_neg h2] at h
      simp only [Option.some.injEq, Prod.mk.injEq] at h
      refine ⟨cs.takeWhile isDigitC, [], fun c hc => List.mem_takeWhile_imp hc, h1,
        by simp, Or.inl ⟨rfl, ?_⟩, h.1.symm⟩
      calc cs = cs.takeWhile isDigitC ++ cs.dropWhile isDigitC :=
            (List.takeWhile_append_dropWhile _ _).symm
        _ = cs.takeWhile isDigitC := by rw [h.2, List.append_nil]

/-- Characters of a complete decimal match are digits or the dot. -/
theorem parseDecimal_chars (cs : List Char) (q : ℚ) (h : parseDecimal cs = some (q, [])) :
    ∀ c ∈ cs, isDigitC c = true ∨ c = '.' := by
  obtain ⟨ds, fs, hds, _, hfs, hcase, _⟩ := parseDecimal_inv cs q h
  rcases hcase with ⟨_, rfl⟩ | ⟨_, rfl⟩
  · exact fun c hc => Or.inl (hds c hc)
  · intro c hc
    rcases List.mem_append.mp hc with hc | hc
    · exact Or.inl (hds c hc)
    · rcases List.mem_cons.mp hc with rfl | hc
      · exact Or.inr rfl
      · exact Or.inl (hfs c hc)

/-- Python `float()` succeeds, with the same value, on every complete
`\d+(?:\.\d+)?` match. -/
theorem pyFloatL_of_parseDecimal (cs : List Char) (q : ℚ)
    (h : parseDecimal cs = some (q, [])) : pyFloatL cs = some (.num q) := by
  have hchars := parseDecimal_chars cs q h
  obtain ⟨ds, fs, hds, hdne, hfs, hcase, hq⟩ := parseDecimal_inv cs q h
  have hstrip : stripL cs = cs := by
    refine stripL_eq_self cs (fun c hc => ?_)
    rcases hchars c hc with hd | rfl
    · exact digit_not_ws c hd
    · decide
  have hlower : toLowerL cs = cs := by
    refine toLowerL_eq_self cs (fun c hc => ?_)
    rcases hchars c hc with hd | rfl
    · exact digit_toLower c hd
    · decide
  obtain ⟨d, ds', rfl⟩ : ∃ d ds', ds = d :: ds' := by
    cases ds with
    | nil => exact absurd rfl hdne
    | cons d ds' => exact ⟨d, ds', rfl⟩
  have hdd : isDigitC d = true := hds d (List.mem_cons_self d ds')
  have hcs : ∃ t, cs = d :: t ∧ ((fs = [] ∧ t = ds') ∨ (fs ≠ [] ∧ t = ds' ++ '.' :: fs)) := by
    rcases hcase with ⟨hfe, rfl⟩ | ⟨hfe, rfl⟩
    · exact ⟨ds', rfl, Or.inl ⟨hfe, rfl⟩⟩
    · exact ⟨ds' ++ '.' :: fs, by simp, Or.inr ⟨hfe, rfl⟩⟩
  obtain ⟨t, rfl, hts⟩ := hcs
  unfold pyFloatL
  rw [hstrip, hlower]
  have hne1 : ((d :: t).head? = some '-') = False := by
    simp only [List.head?_cons, Option.some.injEq]
    exact eq_false (digit_ne d '-' hdd (by decide))
  have hne2 : ((d :: t).head? = some '+') = False := by
    simp only [List.head?_cons, Option.some.injEq]
    exact eq_false (digit_ne d '+' hdd (by decide))
  simp only [hne1, hne2, decide_False, Bool.or_self, Bool.false_eq_true, if_false]
  have hni : (d :: t = "inf".data) = False := by
    refine eq_false (fun he => ?_)
    have : d = 'i' := by
      have := congrArg (fun l => List.head? l) he
      simpa using this
    exact digit_ne d 'i' hdd (by decide) this
  have hni2 : (d :: t = "infinity".data) = False := by
    refine eq_false (fun he => ?_)
    have : d = 'i' := by
      have := congrArg (fun l => List.head? l) he
      simpa using this
    exact digit_ne d 'i' hdd (by decide) this
  have hnn : (d :: t = "nan".data) = False := by
    refine eq_false (fun he => ?_)
    have : d = 'n' := by
      have := congrArg (fun l => List.head? l) he
      simpa using this
    exact digit_ne d 'n' hdd (by decide) this
  simp only [hni, hni2, hnn, or_self, if_false]
  unfold pyFloatNum
  have hnd : ((d :: t).head? = some '.') = False := by
    simp only [List.head?_cons, Option.some.injEq]
    exact eq_false (digit_ne d '.' hdd (by decide))
  simp only [hnd, if_false]
  rcases hts with ⟨hfe, rfl⟩ | ⟨hfe, rfl⟩
  · have hu : takeDigitsU (d :: t) = (d :: t, []) := by
      have := takeDigitsU_digits (d :: t) [] hds (Or.inl rfl)
      simpa using this
    rw [hu]
    simp only [List.head?_nil, reduceCtorEq, if_false]
    subst hfe
    simp [withExp, hq, hdne]
  · have hu : takeDigitsU (d :: (ds' ++ '.' :: fs)) = (d :: ds', '.' :: fs) := by
      have := takeDigitsU_digits (d :: ds') ('.' :: fs) hds
        (Or.inr ⟨'.', rfl, by decide, by decide⟩)
      simpa using this
    rw [hu]
    have hf : takeDigitsU fs = (fs, []) := by
      have := takeDigitsU_digits fs [] hfs (Or.inl rfl)
      simpa using this
    simp only [List.head?_cons, Option.some.injEq, List.tail_cons, hf]
    simp [withExp, hq, hdne]

/-- A suffix-free full match is exactly a complete decimal parse. -/
theorem fullmatch_inv (cs : List Char) (q : ℚ)
    (h : fullmatchNumSuffix cs = some (q, none)) : parseDecimal cs = some (q, []) := by
  unfold fullmatchNumSuffix at h
  cases hp : parseDecimal cs with
  | none => rw [hp] at h; exact absurd h (by simp)
  | some pr =>
    rw [hp] at h
    obtain ⟨q2, rest⟩ := pr
    cases rest with
    | nil =>
      simp only [Option.some.injEq, Prod.mk.injEq] at h
      rw [h.1]
    | cons c rest2 =>
      cases rest2 with
      | nil =>
        dsimp only at h
        split_ifs at h
        simp at h
      | cons c2 rest3 => exact absurd h (by simp)

/-- Appending a non-digit, non-dot character to a complete decimal match moves
it into the remainder. -/
theorem parseDecimal_append (cs : List Char) (q : ℚ) (s : Char)
    (h : parseDecimal cs = some (q, [])) (hs1 : isDigitC s = false) (hs2 : s ≠ '.') :
    parseDecimal (cs ++ [s]) = some (q, [s]) := by
  obtain ⟨ds, fs, hds, hdne, hfs, hcase, hq⟩ := parseDecimal_inv cs q h
  rcases hcase with ⟨rfl, rfl⟩ | ⟨hfne, rfl⟩
  · unfold parseDecimal
    rw [takeDigits_append cs [s] hds (Or.inr ⟨s, rfl, hs1⟩)]
    simp [hdne, hs2, hq]
  · have hre : (ds ++ '.' :: fs) ++ [s] = ds ++ '.' :: (fs ++ [s]) := by simp
    rw [hre]
    unfold parseDecimal
    rw [takeDigits_append ds ('.' :: (fs ++ [s])) hds (Or.inr ⟨'.', rfl, by decide⟩)]
    dsimp only
    rw [if_neg hdne]
    simp only [List.head?_cons, List.tail_cons, if_pos rfl]
    rw [takeDigits_append fs [s] hfs (Or.inr ⟨s, rfl, hs1⟩)]
    simp [hfne, hq]

/-- Appending a k/m suffix to a suffix-free full match yields the suffixed
full match with the same numeric group. -/
theorem fullmatch_append_suffix (cs : List Char) (q : ℚ) (s : Char)
    (h : fullmatchNumSuffix cs = some (q, none)) (hs : s = 'k' ∨ s = 'm') :
    fullmatchNumSuffix (cs ++ [s]) = some (q, some s) := by
  have hp := fullmatch_inv cs q h
  have hs1 : isDigitC s = false := by rcases hs with rfl | rfl <;> decide
  have hs2 : s ≠ '.' := by rcases hs with rfl | rfl <;> decide
  have hpa := parseDecimal_append cs q s hp hs1 hs2
  unfold fullmatchNumSuffix
  rw [hpa]
  rcases hs with rfl | rfl <;> simp

theorem removeComma_chars (tok : List Char) (c : Char) (hc : c ∈ tok) :
    c = ',' ∨ c ∈ removeCommaL tok := by
  by_cases h : c = ','
  · exact Or.inl h
  · exact Or.inr (List.mem_filter.mpr ⟨hc, by simp [h]⟩)

/-- Claim C4: a well-formed numeric token (digits with optional comma grouping
and optional decimal part, here: its comma-free text fully matches the
suffix-free number pattern) with an optional case-insensitive k/m suffix is
interpreted identically by the Query Parser price/area extraction sites
(`priceFromMatch` for lines 159-160 and 163-164, `areaFromMatch` for lines
167 and 169) and by `parse_number` (the discrete-UI pathway, used by
`filter_df` at lines 244-245). -/
theorem numeric_token_single_source_of_truth :
    ∀ (tok : List Char) (suf : Option Char) (q : ℚ),
      fullmatchNumSuffix (removeCommaL tok) = some (q, none) →
      (suf = none ∨ suf = some 'k' ∨ suf = some 'm' ∨ suf = some 'K' ∨ suf = some 'M') →
      priceFromMatch tok (suf.map Char.toLower) =
          some (.num (qmul q (multOf (suf.map Char.toLower)))) ∧
        parse_number (String.mk (tok ++ suf.toList)) =
          some (.num (qmul q (multOf (suf.map Char.toLower)))) ∧
        areaFromMatch tok = some (.num q) := by
  intro tok suf q hfm hsuf
  have hpd : parseDecimal (removeCommaL tok) = some (q, []) := fullmatch_inv _ _ hfm
  have hA : pyFloatL (removeCommaL tok) = some (.num q) := pyFloatL_of_parseDecimal _ _ hpd
  have hrcchars := parseDecimal_chars _ _ hpd
  have htokchars : ∀ c ∈ tok, isDigitC c = true ∨ c = '.' ∨ c = ',' := by
    intro c hc
    rcases removeComma_chars tok c hc with rfl | hm
    · exact Or.inr (Or.inr rfl)
    · rcases hrcchars c hm with hd | rfl
      · exact Or.inl hd
      · exact Or.inr (Or.inl rfl)
  have hrcne : removeCommaL tok ≠ [] := by
    intro he
    rw [he] at hpd
    simp [parseDecimal, takeDigits] at hpd
  have htokne : tok ≠ [] := fun he => hrcne (by rw [he]; rfl)
  refine ⟨?_, ?_, ?_⟩
  · unfold priceFromMatch
    rw [hA]
    rfl
  · have hsne : String.mk (tok ++ suf.toList) ≠ "" := by
      intro he
      have hdt : tok ++ suf.toList = ([] : List Char) := congrArg String.data he
      exact htokne (List.append_eq_nil.mp hdt).1
    unfold parse_number
    rw [if_neg hsne]
    have hstrip : stripL (tok ++ suf.toList) = tok ++ suf.toList := by
      refine stripL_eq_self _ (fun c hc => ?_)
      rcases List.mem_append.mp hc with hc | hc
      · rcases htokchars c hc with hd | rfl | rfl
        · exact digit_not_ws c hd
        · decide
        · decide
      · rcases hsuf with rfl | rfl | rfl | rfl | rfl <;> simp at hc <;> subst hc <;> decide
    have hlow : toLowerL (tok ++ suf.toList) = tok ++ (suf.map Char.toLower).toList := by
      unfold toLowerL
      rw [List.map_append]
      congr 1
      · exact map_eq_self _ tok (fun c hc => by
          rcases htokchars c hc with hd | rfl | rfl
          · exact digit_toLower c hd
          · decide
          · decide)
      · rcases hsuf with rfl | rfl | rfl | rfl | rfl <;> decide
    have hrc : removeCommaL (tok ++ (suf.map Char.toLower).toList) =
        removeCommaL tok ++ (suf.map Char.toLower).toList := by
      unfold removeCommaL
      rw [List.filter_append]
      congr 1
      rcases hsuf with rfl | rfl | rfl | rfl | rfl <;> rfl
    show (match fullmatchNumSuffix
        (removeCommaL (toLowerL (stripL (tok ++ suf.toList)))) with
      | some qsuf => some (.num (qmul qsuf.1 (multOf qsuf.2)))
      | none => pyFloatL (removeCommaL (toLowerL (stripL (tok ++ suf.toList))))) =
        some (.num (qmul q (multOf (suf.map Char.toLower))))
    rw [hstrip, hlow, hrc]
    rcases hsuf with rfl | rfl | rfl | rfl | rfl
    · rw [show ((none : Option Char).map Char.toLower).toList = [] from rfl,
        List.append_nil, hfm]
      rfl
    · rw [show (((some 'k').map Char.toLower)).toList = ['k'] from by decide,
        fullmatch_append_suffix _ _ _ hfm (Or.inl rfl)]
      rw [show ((some 'k').map Char.toLower) = some 'k' from by decide]
    · rw [show (((some 'm').map Char.toLower)).toList = ['m'] from by decide,
        fullmatch_append_suffix _ _ _ hfm (Or.inr rfl)]
      rw [show ((some 'm').map Char.toLower) = some 'm' from by decide]
    · rw [show (((some 'K').map Char.toLower)).toList = ['k'] from by decide,
        fullmatch_append_suffix _ _ _ hfm (Or.inl rfl)]
      rw [show ((some 'K').map Char.toLower) = some 'k' from by decide]
    · rw [show (((some 'M').map Char.toLower)).toList = ['m'] from by decide,
        fullmatch_append_suffix _ _ _ hfm (Or.inr rfl)]
      rw [show ((some 'M').map Char.toLower) = some 'm' from by decide]
  · unfold areaFromMatch
    rw [hA]

/-! ## Totality analysis of parse_query -/


theorem priceFromMatch_some (ts : List Char × Option Char)
    (h : (pyFloatL (removeCommaL ts.1)).isSome = true) :
    ∃ v, priceFromMatch ts.1 ts.2 = some v := by
  obtain ⟨w, hw⟩ := Option.isSome_iff_exists.mp h
  exact ⟨_, by unfold priceFromMatch; rw [hw]; rfl⟩

theorem stagePriceMin_ok (ql : List Char) (f : FilterIntent)
    (h2 : siteOkP (searchNumTok minLeads ql) = true) :
    ∃ g, stagePriceMin ql f = .ok g := by
  unfold stagePriceMin
  cases hn : searchNumTok minLeads ql with
  | none => exact ⟨f, rfl⟩
  | some ts =>
    dsimp only
    rw [hn] at h2
    simp only [siteOkP] at h2
    obtain ⟨v, hv⟩ := priceFromMatch_some ts h2
    rw [hv]
    exact ⟨_, rfl⟩

theorem stagePrice_ok (ql : List Char) (f : FilterIntent)
    (h1 : siteOkP (searchNumTok maxLeads ql) = true)
    (h2 : siteOkP (searchNumTok minLeads ql) = true) :
    ∃ g, stagePrice ql f = .ok g := by
  unfold stagePrice
  cases hm : searchNumTok maxLeads ql with
  | none => exact stagePriceMin_ok ql f h2
  | some ts =>
    dsimp only
    rw [hm] at h1
    simp only [siteOkP] at h1
    obtain ⟨v, hv⟩ := priceFromMatch_some ts h1
    rw [hv]
    exact stagePriceMin_ok ql _ h2

theorem stageAreaMax_ok (ql : List Char) (f : FilterIntent)
    (h2 : siteOkA (searchAreaTok maxAreaComps ql) = true) :
    ∃ g, stageAreaMax ql f = .ok g := by
  unfold stageAreaMax
  cases hn : searchAreaTok maxAreaComps ql with
  | none => exact ⟨f, rfl⟩
  | some t =>
    dsimp only
    rw [hn] at h2
    simp only [siteOkA] at h2
    obtain ⟨v, hv⟩ := Option.isSome_iff_exists.mp h2
    have hva : areaFromMatch t = some v := by unfold areaFromMatch; exact hv
    rw [hva]
    exact ⟨_, rfl⟩

theorem stageArea_ok (ql : List Char) (f : FilterIntent)
    (h1 : siteOkA (searchAreaTok minAreaComps ql) = true)
    (h2 : siteOkA (searchAreaTok maxAreaComps ql) = true) :
    ∃ g, stageArea ql f = .ok g := by
  unfold stageArea
  cases hm : searchAreaTok minAreaComps ql with
  | none => exact stageAreaMax_ok ql f h2
  | some t =>
    dsimp only
    rw [hm] at h1
    simp only [siteOkA] at h1
    obtain ⟨v, hv⟩ := Option.isSome_iff_exists.mp h1
    have hva : areaFromMatch t = some v := by unfold areaFromMatch; exact hv
    rw [hva]
    exact stageAreaMax_ok ql _ h2

/-- The first bare-number match is a nonempty digit run. -/
theorem findBareAux_digits : ∀ (prev : Option Char) (cs ds : List Char),
    findBareAux prev cs = some ds → ds ≠ [] ∧ ∀ c ∈ ds, isDigitC c = true := by
  intro prev cs
  induction cs generalizing prev with
  | nil => intro ds h; simp [findBareAux] at h
  | cons c t ih =>
    intro ds h
    rw [findBareAux] at h
    by_cases h1 : (prevNonWord prev && isDigitC c) = true
    · rw [if_pos h1] at h
      by_cases h2 : (2 ≤ (takeDigits (c :: t)).1.length &&
          ((takeDigits (c :: t)).1.length ≤ 4 && nextNonWord (takeDigits (c :: t)).2)) = true
      · rw [if_pos (by simpa [Bool.and_assoc] using h2)] at h
        simp only [Option.some.injEq] at h
        subst h
        simp only [Bool.and_eq_true, decide_eq_true_eq] at h2
        refine ⟨?_, fun x hx => List.mem_takeWhile_imp hx⟩
        intro he
        rw [takeDigits] at he
        simp only [takeDigits, he, List.length_nil] at h2
        omega
      · rw [if_neg (by simpa [Bool.and_assoc] using h2)] at h
        exact ih (some c) ds h
    · rw [if_neg h1] at h
      exact ih (some c) ds h

/-- Python `float()` succeeds on a nonempty pure digit run. -/
theorem pyFloatL_digits (ds : List Char) (hne : ds ≠ [])
    (hd : ∀ c ∈ ds, isDigitC c = true) : ∃ v, pyFloatL ds = some (.num v) := by
  have htd : takeDigits ds = (ds, []) := by
    have := takeDigits_append ds [] hd (Or.inl rfl)
    simpa using this
  have hp : parseDecimal ds = some (decValQ ds [], []) := by
    unfold parseDecimal
    rw [htd]
    simp [hne]
  exact ⟨decValQ ds [], pyFloatL_of_parseDecimal ds _ hp⟩

theorem stageExact_ok (ql : List Char) (f : FilterIntent) :
    ∃ g, stageExact ql f = .ok g := by
  unfold stageExact
  cases hb : findFirstBare ql with
  | none => exact ⟨f, rfl⟩
  | some ds =>
    dsimp only
    by_cases hc : (f.bedrooms = none && (f.min_price = none && f.max_price = none)) = true
    · rw [if_pos (by simpa [Bool.and_assoc] using hc)]
      obtain ⟨hne, hdig⟩ := findBareAux_digits none ql ds hb
      obtain ⟨v, hv⟩ := pyFloatL_digits ds hne hdig
      exact ⟨_, by rw [hv]⟩
    · rw [if_neg (by simpa [Bool.and_assoc] using hc)]
      exact ⟨f, rfl⟩

/-! ## Claim theorems -/

/-- Claim C1, counterexample: `parse_query` raises an uncaught `ValueError`
(modelled as `Except.error`) on the input "under ." — the price lead-in is
followed by the token ".", which `[\d\.,]+` matches but `float` rejects — so
the parser is not total over all strings as claimed. -/
theorem parse_query_raises_on_dot_token : parse_query "under ." = .error () := by decide

/-- Claim C1, amended: `apply_filters` is a total function (it evaluates to a
plain filter of the table for every table and intent), and `parse_query`
returns a `FilterIntent` for every input string whose matched price/area
numeric tokens are float-valid after comma removal; it raises only when such
a matched token (digits, dots and commas) has no float value, as on
"under .". -/
theorem totality_of_core_boundary :
    (∀ (df : List UnitRecord) (f : FilterIntent),
      apply_filters df f = df.filter (matchesIntent f)) ∧
    (∀ q : String,
      siteOkP (searchNumTok maxLeads (toLowerL q.data)) = true →
      siteOkP (searchNumTok minLeads (toLowerL q.data)) = true →
      siteOkA (searchAreaTok minAreaComps (toLowerL q.data)) = true →
      siteOkA (searchAreaTok maxAreaComps (toLowerL q.data)) = true →
      ∃ f, parse_query q = .ok f) := by
  refine ⟨apply_filters_eq_filter, ?_⟩
  intro q h1 h2 h3 h4
  obtain ⟨f1, hf1⟩ := stagePrice_ok (toLowerL q.data) (stageKeywords (toLowerL q.data)) h1 h2
  obtain ⟨f2, hf2⟩ := stageArea_ok (toLowerL q.data) f1 h3 h4
  obtain ⟨f3, hf3⟩ := stageExact_ok (toLowerL q.data) f2
  refine ⟨stageCodes (toLowerL q.data) f3, ?_⟩
  simp [parse_query, hf1, hf2, hf3]

/-- Claim C1, witness: the totality theorem applied to the concrete query
"under 5m over 1m", whose two price tokens are float-valid. -/
theorem totality_of_core_boundary_witness :
    ∃ f, parse_query "under 5m over 1m" = .ok f :=
  totality_of_core_boundary.2 "under 5m over 1m" (by decide) (by decide) (by decide) (by decide)

/-- Claim C2, counterexample: `parse_query "Boardwalk C1-002"` does not return
the claimed intent `{project: ["Boardwalk"], building: "C1", unit_no:
"C1-002"}` with no other constraint — the digits "002" of the unit code are a
bare 2-4 digit number, and no bedrooms or price constraint suppresses the
exact-area fallback, so `exact_area = 2.0` is also extracted. -/
theorem parse_boardwalk_unit_counterexample :
    parse_query "Boardwalk C1-002" ≠
      .ok { project := some ["Boardwalk"], building := some "C1",
            unit_no := some "C1-002" } := by decide

/-- Claim C2, amended: `parse_query "Boardwalk C1-002"` returns exactly
`{project: ["Boardwalk"], building: "C1", unit_no: "C1-002",
exact_area: 2.0}` — the claimed constraints plus the exact-area constraint
that the fallback extracts from the bare digit run "002". -/
theorem parse_boardwalk_unit_amended :
    parse_query "Boardwalk C1-002" =
      .ok { project := some ["Boardwalk"], building := some "C1",
            unit_no := some "C1-002", exact_area := some (.num 2) } := by decide

/-- Claim C6: `parse_number` accepts integers or decimals with an optional
case-insensitive k/m multiplier, optional comma grouping and surrounding
whitespace — `parse_number "5m" = 5000000`, `parse_number "7.5k" = 7500`,
`parse_number "  1,200  " = 1200` — while empty input, blank input, and input
matching neither the suffixed-number pattern nor a bare float yield `none`
(never an exception, never zero). -/
theorem parse_number_spec :
    parse_number "5m" = some (.num 5000000) ∧
    parse_number "7.5k" = some (.num 7500) ∧
    parse_number "  1,200  " = some (.num 1200) ∧
    parse_number "5M" = some (.num 5000000) ∧
    parse_number "" = none ∧
    (∀ s : String, stripL s.data = [] → parse_number s = none) ∧
    (∀ s : String, s ≠ "" →
      fullmatchNumSuffix (removeCommaL (toLowerL (stripL s.data))) = none →
      pyFloatL (removeCommaL (toLowerL (stripL s.data))) = none →
      parse_number s = none) := by
  refine ⟨by decide, by decide, by decide, by decide, by decide, ?_, ?_⟩
  · intro s hblank
    unfold parse_number
    split_ifs with he
    · rfl
    · rw [hblank]
      decide
  · intro s hne hfm hfl
    unfold parse_number
    rw [if_neg hne]
    dsimp only
    rw [hfm, hfl]

/-- Claim C6, witness: the blank-input and invalid-input branches of
`parse_number_spec` applied at "   " and "x,y". -/
theorem parse_number_spec_witness :
    parse_number "   " = none ∧ parse_number "x,y" = none :=
  ⟨parse_number_spec.2.2.2.2.2.1 "   " (by decide),
   parse_number_spec.2.2.2.2.2.2 "x,y" (by decide) (by decide) (by decide)⟩

/-- Claim C4, witness: the single-source-of-truth theorem applied to the
token "1,200" with suffix "M": both pathways give 1,200,000,000. -/
theorem numeric_token_single_source_of_truth_witness :
    priceFromMatch "1,200".data (some 'm') = some (.num (qmul 1200 (multOf (some 'm')))) ∧
      parse_number "1,200M" = some (.num (qmul 1200 (multOf (some 'm')))) ∧
      areaFromMatch "1,200".data = some (.num 1200) :=
  numeric_token_single_source_of_truth "1,200".data (some 'M') 1200 (by decide)
    (by simp)


/-- Claim C7, counterexample: with the max-price bound -1, the absent-price
record — treated as price 0 — FAILS the max_price constraint (0 ≤ -1 is
false) and is filtered out, though the claim says an absent-price record
passes every max_price constraint. -/
theorem absent_price_fails_negative_max_price :
    apply_filters [rAbs] { max_price := some (.num (-1)) } = [] := by decide

/-- Claim C7, amended: a record with an absent price is treated as price 0,
so it fails every min_price constraint with bound ≥ 1 (and is then excluded
from the result) and passes every max_price constraint with nonnegative
bound; likewise for the area bounds; on the two-record example,
`{min_price: 1}` yields only the priced record. -/
theorem absent_numeric_comparison_semantics :
    (∀ (f : FilterIntent) (r : UnitRecord) (b : ℚ), r.price = none →
      f.min_price = some (.num b) → 1 ≤ b → minPriceOk f r = false) ∧
    (∀ (f : FilterIntent) (r : UnitRecord) (b : ℚ), r.price = none →
      f.max_price = some (.num b) → 0 ≤ b → maxPriceOk f r = true) ∧
    (∀ (f : FilterIntent) (r : UnitRecord) (b : ℚ), r.selling_area = none →
      f.min_area = some (.num b) → 1 ≤ b → minAreaOk f r = false) ∧
    (∀ (f : FilterIntent) (r : UnitRecord) (b : ℚ), r.selling_area = none →
      f.max_area = some (.num b) → 0 ≤ b → maxAreaOk f r = true) ∧
    (∀ (df : List UnitRecord) (f : FilterIntent) (r : UnitRecord),
      minPriceOk f r = false → r ∉ apply_filters df f) ∧
    apply_filters [rAbs, rTen] { min_price := some (.num 1) } = [rTen] := by
  refine ⟨?_, ?_, ?_, ?_, ?_, by decide⟩
  · intro f r b hr hf hb
    simp only [minPriceOk, hf, stagePred, hr, Option.getD_none, pyLe]
    exact decide_eq_false (by linarith)
  · intro f r b hr hf hb
    simp only [maxPriceOk, hf, stagePred, hr, Option.getD_none, pyLe]
    exact decide_eq_true hb
  · intro f r b hr hf hb
    simp only [minAreaOk, hf, stagePred, hr, Option.getD_none, pyLe]
    exact decide_eq_false (by linarith)
  · intro f r b hr hf hb
    simp only [maxAreaOk, hf, stagePred, hr, Option.getD_none, pyLe]
    exact decide_eq_true hb
  · intro df f r hmin hr
    rw [apply_filters_eq_filter] at hr
    have hm := List.of_mem_filter hr
    simp only [matchesIntent, Bool.and_eq_true] at hm
    have hcomp := hm.2.2.2.2.2.2.1
    rw [hmin] at hcomp
    exact absurd hcomp (by decide)

/-- Claim C7, witness: the min-price branch applied to the intent
`{min_price: 1}` and the absent-price record. -/
theorem absent_numeric_comparison_semantics_witness :
    minPriceOk { min_price := some (.num 1) } rAbs = false :=
  absent_numeric_comparison_semantics.1 { min_price := some (.num 1) } rAbs 1 rfl rfl
    (le_refl 1)


theorem stagePred_mono {α : Type} (oA oB : Option α) (g : α → UnitRecord → Bool)
    (r : UnitRecord) (h : oA = none ∨ oB = oA) (hB : stagePred oB g r = true) :
    stagePred oA g r = true := by
  rcases h with h | h
  · rw [h]; rfl
  · rw [← h]; exact hB

theorem matchesIntent_mono (A B : FilterIntent) (r : UnitRecord) (hext : Extends B A)
    (hB : matchesIntent B r = true) : matchesIntent A r = true := by
  obtain ⟨h1, h2, h3, h4, h5, h6, h7, h8, h9, h10⟩ := hext
  simp only [matchesIntent, unitOk, buildingOk, exactAreaOk, maxAreaOk, minAreaOk,
    maxPriceOk, minPriceOk, bedOk, statusOk, projOk, Bool.and_eq_true] at hB ⊢
  obtain ⟨b10, b9, b8, b7, b6, b5, b4, b3, b2, b1⟩ := hB
  exact ⟨stagePred_mono _ _ _ _ h10 b10, stagePred_mono _ _ _ _ h9 b9,
    stagePred_mono _ _ _ _ h8 b8, stagePred_mono _ _ _ _ h7 b7,
    stagePred_mono _ _ _ _ h6 b6, stagePred_mono _ _ _ _ h5 b5,
    stagePred_mono _ _ _ _ h4 b4, stagePred_mono _ _ _ _ h3 b3,
    stagePred_mono _ _ _ _ h2 b2, stagePred_mono _ _ _ _ h1 b1⟩

/-- Claim C8: the filter engine is conjunctive and monotone-narrowing — the
empty intent returns the whole table, any result is a sub-list of the input
table, and an intent with a superset of the constraints yields a sub-list
(hence no more rows) of the weaker intent's result. -/
theorem apply_filters_monotone_narrowing :
    ∀ (T : List UnitRecord) (A B : FilterIntent),
      apply_filters T {} = T ∧
      (apply_filters T A).Sublist T ∧
      (Extends B A →
        (apply_filters T B).Sublist (apply_filters T A) ∧
        (apply_filters T B).length ≤ (apply_filters T A).length) := by
  intro T A B
  refine ⟨rfl, ?_, fun hext => ?_⟩
  · rw [apply_filters_eq_filter]
    exact List.filter_sublist T
  · have hsub : (apply_filters T B).Sublist (apply_filters T A) := by
      rw [apply_filters_eq_filter, apply_filters_eq_filter]
      exact List.monotone_filter_right T (fun r hr => matchesIntent_mono A B r hext hr)
    exact ⟨hsub, hsub.length_le⟩

/-- Claim C8, witness: adding a min-price constraint to a status constraint
can only shrink the result on the two-record example table. -/
theorem apply_filters_monotone_narrowing_witness :
    (apply_filters [rAbs, rTen]
        { status := some ["Hold"], min_price := some (.num 1) }).length ≤
      (apply_filters [rAbs, rTen] { status := some ["Hold"] }).length :=
  ((apply_filters_monotone_narrowing [rAbs, rTen] { status := some ["Hold"] }
    { status := some ["Hold"], min_price := some (.num 1) }).2.2 (by decide)).2

/-- Claim C10: the filter engine only selects rows — the result is a sub-list
of the input table, so every record of the output is an unaltered record of
the input; neither the table nor the intent is modified (the embedding is
pure, and the result shares the input's records unchanged). -/
theorem apply_filters_frame :
    ∀ (df : List UnitRecord) (f : FilterIntent),
      (apply_filters df f).Sublist df ∧ ∀ r, r ∈ apply_filters df f → r ∈ df := by
  intro df f
  have hs : (apply_filters df f).Sublist df := by
    rw [apply_filters_eq_filter]
    exact List.filter_sublist df
  exact ⟨hs, fun r hr => hs.subset hr⟩

/-- Claim C10, witness: the record selected by `{min_price: 1}` is a record
of the input table. -/
theorem apply_filters_frame_witness : rTen ∈ ([rAbs, rTen] : List UnitRecord) :=
  (apply_filters_frame [rAbs, rTen] { min_price := some (.num 1) }).2 rTen (by decide)

/-- Claim C3 (code-bug evidence): on the example sheets, the CSV download
(line 300) contains no underscore-prefixed column, but the on-screen
`st.dataframe(chat_df, ...)` view (line 264) renders the frame unchanged —
with `_unit_upper` and `_building_upper` — although line 122's comment says
the helper columns are "not shown" and the spec requires their exclusion
from every displayed view. -/
theorem displayed_view_contains_shadow_fields :
    "_unit_upper" ∈ (displayedView unitsEx).cols ∧
    "_building_upper" ∈ (displayedView unitsEx).cols ∧
    "_unit_upper" ∉ (csvDownloadView unitsEx).cols ∧
    "_building_upper" ∉ (csvDownloadView unitsEx).cols := by decide

/-- Claim C5, counterexample: the unified table loaded from the example
sheets — where the BOHO source has no Status column at all — has a status
column, but the BOHO record's status cell is missing, not "Available": the
`fillna("Available")` of `cleanup_cols` runs before the reindex that creates
the column for that source. -/
theorem status_absent_when_source_lacks_column :
    unitsEx.cols.contains "status" = true ∧
    cellAt unitsEx.cols (unitsEx.rows.getD 1 []) "status" = Cell.na := by decide

/-- Claim C5, amended: for every source table whose columns include `status`,
normalization leaves every record with a present status, and records whose
status was missing get "Available"; records of a source without a status
column keep an absent status in the unified table (see the counterexample). -/
theorem cleanup_cols_status_filled :
    ∀ (df : Df) (row : List Cell), df.cols.contains "status" = true →
      row.length = df.cols.length → row ∈ df.rows →
      (cleanup_cols df).cols = df.cols ∧
      cleanupRow df.cols row ∈ (cleanup_cols df).rows ∧
      cellAt df.cols (cleanupRow df.cols row) "status" ≠ Cell.na ∧
      (cellAt df.cols row "status" = Cell.na →
        cellAt df.cols (cleanupRow df.cols row) "status" = Cell.str "Available") := by
  intro df row hst hlen hmem
  have hkey := cleanupRow_status df.cols row hlen hst
  refine ⟨rfl, List.mem_map_of_mem _ hmem, ?_, ?_⟩
  · rw [hkey]
    cases hcell : cellAt df.cols row "status" with
    | na => simp [stripNanCell, fillnaCell]
    | str s =>
      by_cases hnan : String.mk (stripL s.data) = "nan"
      · simp [stripNanCell, hnan, fillnaCell]
      · simp [stripNanCell, hnan, fillnaCell]
    | num v => simp [stripNanCell, fillnaCell]
  · intro hna
    rw [hkey, hna]
    rfl

/-- Claim C5, witness: the amended theorem applied to a one-column table with
one missing status cell. -/
theorem cleanup_cols_status_filled_witness :
    cellAt ["status"] (cleanupRow ["status"] [Cell.na]) "status" = Cell.str "Available" :=
  (cleanup_cols_status_filled { cols := ["status"], rows := [[Cell.na]] } [Cell.na]
    (by decide) (by decide) (by decide)).2.2.2 (by decide)

/-! ## Field tracking through the parse_query stages (for the exact-area rule) -/

theorem stageKeywords_numeric (ql : List Char) :
    (stageKeywords ql).min_price = none ∧ (stageKeywords ql).max_price = none ∧
      (stageKeywords ql).exact_area = none := by
  unfold stageKeywords
  cases searchBedrooms ql <;> refine ⟨?_, ?_, ?_⟩ <;> dsimp only <;> split_ifs <;> rfl

theorem stagePriceMin_inv (ql : List Char) (f g : FilterIntent)
    (h : stagePriceMin ql f = .ok g) :
    g.bedrooms = f.bedrooms ∧ g.exact_area = f.exact_area ∧ g.max_price = f.max_price ∧
      (g.min_price = none ↔ searchNumTok minLeads ql = none ∧ f.min_price = none) := by
  unfold stagePriceMin at h
  cases hn : searchNumTok minLeads ql with
  | none =>
    rw [hn] at h
    simp only [Except.ok.injEq] at h
    subst h
    simp
  | some ts =>
    rw [hn] at h
    dsimp only at h
    cases hv : priceFromMatch ts.1 ts.2 with
    | none => rw [hv] at h; exact absurd h (by simp)
    | some v =>
      rw [hv] at h
      simp only [Except.ok.injEq] at h
      subst h
      simp

theorem stagePrice_inv (ql : List Char) (f g : FilterIntent)
    (h : stagePrice ql f = .ok g) :
    g.bedrooms = f.bedrooms ∧ g.exact_area = f.exact_area ∧
      (g.min_price = none ↔ searchNumTok minLeads ql = none ∧ f.min_price = none) ∧
      (g.max_price = none ↔ searchNumTok maxLeads ql = none ∧ f.max_price = none) := by
  unfold stagePrice at h
  cases hm : searchNumTok maxLeads ql with
  | none =>
    rw [hm] at h
    obtain ⟨hb, he, hmp, hmin⟩ := stagePriceMin_inv ql f g h
    exact ⟨hb, he, hmin, by simp [hmp]⟩
  | some ts =>
    rw [hm] at h
    dsimp only at h
    cases hv : priceFromMatch ts.1 ts.2 with
    | none => rw [hv] at h; exact absurd h (by simp)
    | some v =>
      rw [hv] at h
      obtain ⟨hb, he, hmp, hmin⟩ := stagePriceMin_inv ql _ g h
      refine ⟨hb, he, by simpa using hmin, ?_⟩
      rw [hmp]
      simp

theorem stageAreaMax_inv (ql : List Char) (f g : FilterIntent)
    (h : stageAreaMax ql f = .ok g) :
    g.bedrooms = f.bedrooms ∧ g.exact_area = f.exact_area ∧
      g.min_price = f.min_price ∧ g.max_price = f.max_price := by
  unfold stageAreaMax at h
  cases hn : searchAreaTok maxAreaComps ql with
  | none =>
    rw [hn] at h
    simp only [Except.ok.injEq] at h
    subst h
    exact ⟨rfl, rfl, rfl, rfl⟩
  | some t =>
    rw [hn] at h
    dsimp only at h
    cases hv : areaFromMatch t with
    | none => rw [hv] at h; exact absurd h (by simp)
    | some v =>
      rw [hv] at h
      simp only [Except.ok.injEq] at h
      subst h
      exact ⟨rfl, rfl, rfl, rfl⟩

theorem stageArea_inv (ql : List Char) (f g : FilterIntent)
    (h : stageArea ql f = .ok g) :
    g.bedrooms = f.bedrooms ∧ g.exact_area = f.exact_area ∧
      g.min_price = f.min_price ∧ g.max_price = f.max_price := by
  unfold stageArea at h
  cases hm : searchAreaTok minAreaComps ql with
  | none =>
    rw [hm] at h
    exact stageAreaMax_inv ql f g h
  | some t =>
    rw [hm] at h
    dsimp only at h
    cases hv : areaFromMatch t with
    | none => rw [hv] at h; exact absurd h (by simp)
    | some v =>
      rw [hv] at h
      obtain ⟨hb, he, hmin, hmax⟩ := stageAreaMax_inv ql _ g h
      exact ⟨hb, he, hmin, hmax⟩

theorem stageExact_inv (ql : List Char) (f g : FilterIntent)
    (h : stageExact ql f = .ok g) :
    g.bedrooms = f.bedrooms ∧ g.min_price = f.min_price ∧ g.max_price = f.max_price ∧
      ((findFirstBare ql = none ∨
        ¬(f.bedrooms = none ∧ f.min_price = none ∧ f.max_price = none)) → g = f) ∧
      (∀ ds, findFirstBare ql = some ds → f.bedrooms = none → f.min_price = none →
        f.max_price = none → g.exact_area = pyFloatL ds ∧ g.exact_area ≠ none) := by
  unfold stageExact at h
  cases hb : findFirstBare ql with
  | none =>
    rw [hb] at h
    simp only [Except.ok.injEq] at h
    subst h
    refine ⟨rfl, rfl, rfl, fun _ => rfl, fun ds hds => ?_⟩
    exact absurd hds (by simp)
  | some ds =>
    rw [hb] at h
    dsimp only at h
    by_cases hc : (f.bedrooms = none && (f.min_price = none && f.max_price = none)) = true
    · rw [if_pos (by simpa [Bool.and_assoc] using hc)] at h
      cases hv : pyFloatL ds with
      | none => rw [hv] at h; exact absurd h (by simp)
      | some v =>
        rw [hv] at h
        simp only [Except.ok.injEq] at h
        subst h
        simp only [Bool.and_eq_true, decide_eq_true_eq] at hc
        refine ⟨rfl, rfl, rfl, fun hor => ?_, fun ds2 hds2 _ _ _ => ?_⟩
        · rcases hor with hor | hor
          · exact Option.noConfusion hor
          · exact absurd ⟨hc.1, hc.2.1, hc.2.2⟩ hor
        · simp only [Option.some.injEq] at hds2
          subst hds2
          exact ⟨hv.symm, by simp⟩
    · rw [if_neg (by simpa [Bool.and_assoc] using hc)] at h
      simp only [Except.ok.injEq] at h
      subst h
      refine ⟨rfl, rfl, rfl, fun _ => rfl, fun ds2 hds2 hb1 hm1 hx1 => ?_⟩
      exact absurd (by simp [hb1, hm1, hx1]) hc

theorem stageCodes_frame (ql : List Char) (f : FilterIntent) :
    (stageCodes ql f).bedrooms = f.bedrooms ∧ (stageCodes ql f).min_price = f.min_price ∧
      (stageCodes ql f).max_price = f.max_price ∧
      (stageCodes ql f).exact_area = f.exact_area := by
  unfold stageCodes
  cases searchBuilding ql <;> cases searchUnit ql <;> exact ⟨rfl, rfl, rfl, rfl⟩

theorem parse_query_inv (q : String) (f : FilterIntent) (h : parse_query q = .ok f) :
    ∃ f1 f2 f3, stagePrice (toLowerL q.data) (stageKeywords (toLowerL q.data)) = .ok f1 ∧
      stageArea (toLowerL q.data) f1 = .ok f2 ∧
      stageExact (toLowerL q.data) f2 = .ok f3 ∧
      f = stageCodes (toLowerL q.data) f3 := by
  unfold parse_query at h
  dsimp only at h
  cases hp : stagePrice (toLowerL q.data) (stageKeywords (toLowerL q.data)) with
  | error e => rw [hp] at h; exact absurd h (by simp)
  | ok f1 =>
    rw [hp] at h
    dsimp only at h
    cases ha : stageArea (toLowerL q.data) f1 with
    | error e => rw [ha] at h; exact absurd h (by simp)
    | ok f2 =>
      rw [ha] at h
      dsimp only at h
      cases he : stageExact (toLowerL q.data) f2 with
      | error e => rw [he] at h; exact absurd h (by simp)
      | ok f3 =>
        rw [he] at h
        simp only [Except.ok.injEq] at h
        exact ⟨f1, f2, f3, rfl, ha, he, h.symm⟩

/-- Claim C9: `parse_query` produces an exact-area constraint if and only if
the lowercased text contains a bare 2-4 digit number and no bedrooms,
min-price or max-price constraint was extracted; when it fires, the value is
the `float` of the FIRST such bare number. -/
theorem exact_area_fallback_rule :
    ∀ (q : String) (f : FilterIntent), parse_query q = .ok f →
      ((f.exact_area ≠ none) ↔
        ((findFirstBare (toLowerL q.data)).isSome ∧ f.bedrooms = none ∧
          f.min_price = none ∧ f.max_price = none)) ∧
      (∀ ds, findFirstBare (toLowerL q.data) = some ds → f.bedrooms = none →
        f.min_price = none → f.max_price = none → f.exact_area = pyFloatL ds) := by
  intro q f h
  obtain ⟨f1, f2, f3, hf1, hf2, hf3, hfe⟩ := parse_query_inv q f h
  have hk := stageKeywords_numeric (toLowerL q.data)
  have hp := stagePrice_inv (toLowerL q.data) (stageKeywords (toLowerL q.data)) f1 hf1
  have ha := stageArea_inv (toLowerL q.data) f1 f2 hf2
  have he := stageExact_inv (toLowerL q.data) f2 f3 hf3
  have hc := stageCodes_frame (toLowerL q.data) f3
  have hbed : f.bedrooms = f2.bedrooms := by rw [hfe, hc.1, he.1]
  have hmin : f.min_price = f2.min_price := by rw [hfe, hc.2.1, he.2.1]
  have hmax : f.max_price = f2.max_price := by rw [hfe, hc.2.2.1, he.2.2.1]
  have hex : f.exact_area = f3.exact_area := by rw [hfe, hc.2.2.2]
  have hx2 : f2.exact_area = none := by rw [ha.2.1, hp.2.1, hk.2.2]
  constructor
  · constructor
    · intro hne
      cases hb : findFirstBare (toLowerL q.data) with
      | none =>
        have := he.2.2.2.1 (Or.inl hb)
        rw [hex, this, hx2] at hne
        exact absurd rfl hne
      | some ds =>
        by_cases hcond : f2.bedrooms = none ∧ f2.min_price = none ∧ f2.max_price = none
        · exact ⟨by simp [hb], by rw [hbed]; exact hcond.1, by rw [hmin]; exact hcond.2.1,
            by rw [hmax]; exact hcond.2.2⟩
        · have := he.2.2.2.1 (Or.inr hcond)
          rw [hex, this, hx2] at hne
          exact absurd rfl hne
    · rintro ⟨hsome, hb1, hm1, hx1⟩
      obtain ⟨ds, hds⟩ := Option.isSome_iff_exists.mp hsome
      have := he.2.2.2.2 ds hds (by rw [← hbed]; exact hb1) (by rw [← hmin]; exact hm1)
        (by rw [← hmax]; exact hx1)
      rw [hex]
      exact this.2
  · intro ds hds hb1 hm1 hx1
    have := he.2.2.2.2 ds hds (by rw [← hbed]; exact hb1) (by rw [← hmin]; exact hm1)
      (by rw [← hmax]; exact hx1)
    rw [hex]
    exact this.1

/-- Claim C9, witness: on "C1 180" the fallback fires and the exact-area value
is the float of the first bare number "180". -/
theorem exact_area_fallback_rule_witness :
    ({ building := some "C1", exact_area := some (.num 180) } :
        FilterIntent).exact_area = pyFloatL "180".data :=
  (exact_area_fallback_rule "C1 180"
    { building := some "C1", exact_area := some (.num 180) } (by decide)).2
    "180".data (by decide) rfl rfl rfl

end Atric
